import Mathlib

/-!
Verification of the receipt-extraction core of the `pdf_ocr` repository.

The development shallowly embeds the two core modules:

* `app/services/json_utils.py` — the LLM-reply sanitizer, JSON bridge,
  schema validator, currency normaliser and monetary post-processing
  (`parse_json_response`, `postprocess`, `_validate_amounts`,
  `_normalise_currency`, `CURRENCY_ALIASES`);
* `app/services/receipt_parser.py` — the regex heuristic extractor
  (`RegexReceiptParser.parse` and its `_extract_*` helpers).

Modelling conventions, noted once here:

* Python strings are modelled as `List Char` (wrapped into `String` at the
  record boundary).  The character classes `\s`, `\d`, `\w` and the
  `IGNORECASE` flag are modelled over their ASCII members, and `str.strip`
  over ASCII whitespace; none of the properties below depends on the
  non-ASCII extensions of those classes.
* Python `float` is modelled as `ℚ`; `round(x, 2)` is modelled as exact
  half-to-even rounding on hundredths of the exact decimal value (the
  source rounds binary doubles, whose value at exact `.xx5` ties the spec
  itself leaves unpinned).
* `re` patterns are embedded into a small backtracking matcher (`reM`)
  whose alternation is left-first, whose greedy/lazy quantifiers try
  longest/shortest first, mirroring the Python engine's order; `$` is
  modelled as end-of-string (the matched lines contain no newline).
* `json.loads` is embedded as a fuel-based recursive-descent parser for
  RFC 8259 JSON with exact rational numbers; the non-standard `NaN` /
  `Infinity` literals and lone escaped surrogates are not modelled.
* `pydantic.model_validate` is modelled as a validator for the declared
  schema of `app/schemas/receipt.py` in the library's default lax mode:
  aliases with `populate_by_name` (alias looked up first), extra keys
  ignored, JSON numbers forming one kind with integer fields requiring an
  integral value, and — as the library's lax coercion does — numeric
  *strings* accepted for numeric fields (an integer field additionally
  requires the string's value to be integral; booleans are rejected for
  numeric fields, and numbers for string fields, as in the library).
  The coerced string grammar is optional surrounding whitespace, an
  optional sign, and a decimal literal with optional fraction and
  exponent; `inf`/`nan` strings and digit-group underscores are not
  modelled.
-/

/-! ### Basic character and string helpers -/

/-- ASCII whitespace, the members of Python's `\s` used by the receipts. -/
def isWsC (c : Char) : Bool :=
  c == ' ' || c == '\t' || c == '\n' || c == '\r' || c == '\x0b' || c == '\x0c'

/-- ASCII decimal digit, Python's `\d` on ASCII. -/
def isDigitC (c : Char) : Bool := '0' ≤ c && c ≤ '9'

/-- ASCII uppercase letter. -/
def isUpperC (c : Char) : Bool := 'A' ≤ c && c ≤ 'Z'

/-- ASCII letter (what `[A-Z]` matches under `IGNORECASE`). -/
def isAlphaC (c : Char) : Bool := ('A' ≤ c && c ≤ 'Z') || ('a' ≤ c && c ≤ 'z')

/-- Case-insensitive character comparison (ASCII model of `IGNORECASE`). -/
def ciEq (a b : Char) : Bool := a.toLower == b.toLower

/-- Python `str.strip()` over ASCII whitespace. -/
def pyStrip (s : List Char) : List Char :=
  ((s.dropWhile isWsC).reverse.dropWhile isWsC).reverse

/-- Does `w` occur at the head of `s` (case-insensitive when `ci`)? -/
def litAt (ci : Bool) : List Char → List Char → Bool
  | [], _ => true
  | _ :: _, [] => false
  | c :: w, d :: s => (if ci then ciEq c d else c == d) && litAt ci w s

/-- Index of the first occurrence of `w` in `s` (Python `str.find` / `in`). -/
def findSubAux (w : List Char) : List Char → Nat → Option Nat
  | [], i => if litAt false w [] then some i else none
  | c :: t, i => if litAt false w (c :: t) then some i else findSubAux w t (i + 1)

/-- First index of substring `w` in `s`, `none` when absent. -/
def findSub (w s : List Char) : Option Nat := findSubAux w s 0

/-- Python `w in s` (case-sensitive substring test). -/
def containsSub (w s : List Char) : Bool := (findSub w s).isSome

/-- Case-insensitive substring test (a `re.search` of a fixed word under
`IGNORECASE`). -/
def containsSubCI (w : List Char) : List Char → Bool
  | [] => litAt true w []
  | c :: t => litAt true w (c :: t) || containsSubCI w t

/-- Digits of `\d+` to a natural number (Python `int`). -/
def digitsToNat (ds : List Char) : Nat :=
  ds.foldl (fun n c => 10 * n + (c.toNat - '0'.toNat)) 0

/-- `_parse_price`: replace `,` by `.` and read the decimal as an exact
rational (the float conversion of the source). -/
def parsePrice (s : List Char) : ℚ :=
  let s' := s.map (fun c => if c == ',' then '.' else c)
  match s'.splitOn '.' with
  | [a] => (digitsToNat a : ℚ)
  | [a, b] => (digitsToNat a : ℚ) + (digitsToNat b : ℚ) / ((10 : ℚ) ^ b.length)
  | _ => 0

/-! ### The receipt schema (`app/schemas/receipt.py`) -/

/-- `Item`: name, quantity, unit price. -/
structure Item where
  item : String
  quantity : Int
  price : ℚ
deriving DecidableEq, Repr

/-- `ServiceProvider`: name required, address and VAT number optional. -/
structure ServiceProvider where
  name : String
  address : Option String
  vat_number : Option String
deriving DecidableEq, Repr

/-- `TransactionDetails`: items (default empty), currency, total, VAT info. -/
structure TransactionDetails where
  items : List Item
  currency : Option String
  total_amount : Option ℚ
  vat : Option String
deriving DecidableEq, Repr

/-- `ReceiptResponse`: the canonical record every strategy returns. -/
structure ReceiptResponse where
  service_provider : ServiceProvider
  transaction_details : TransactionDetails
  message : Option String
deriving DecidableEq, Repr

/-- The fixed fallback record of `parse_json_response`'s `except` arm. -/
def fallbackRecord : ReceiptResponse :=
  ⟨⟨"Unknown", none, none⟩, ⟨[], none, none, none⟩, none⟩

/-! ### A small backtracking regex matcher

The constructors cover exactly what the source's patterns use: character
classes, literals (optionally case-insensitive), concatenation,
ordered alternation, greedy and lazy star over a character class, greedy
option, capture groups, and the end anchor. -/

/-- Abstract syntax of the embedded regular expressions. -/
inductive RE where
  | eps
  | chr (p : Char → Bool)
  | lit (cs : List Char) (ci : Bool)
  | cat (a b : RE)
  | alt (a b : RE)
  | starG (p : Char → Bool)
  | starL (p : Char → Bool)
  | opt (a : RE)
  | grp (n : Nat) (a : RE)
  | eos

/-- Capture environment: group number to captured characters, newest first. -/
abbrev Caps := List (Nat × List Char)

/-- Continuation of the matcher: rest of input and captures so far. -/
abbrev ReK := List Char → Caps → Option Caps

/-- Match a literal at the head of the input, returning the rest. -/
def litMatch (ci : Bool) : List Char → List Char → Option (List Char)
  | [], s => some s
  | _ :: _, [] => none
  | c :: w, d :: s => if (if ci then ciEq c d else c == d) then litMatch ci w s else none

/-- Greedy star over a character class: longest run first, then backtrack. -/
def starGp (p : Char → Bool) : List Char → Caps → ReK → Option Caps
  | [], g, k => k [] g
  | c :: t, g, k =>
    if p c then
      match starGp p t g k with
      | some r => some r
      | none => k (c :: t) g
    else k (c :: t) g

/-- Lazy star over a character class: shortest run first, then extend. -/
def starLp (p : Char → Bool) : List Char → Caps → ReK → Option Caps
  | [], g, k => k [] g
  | c :: t, g, k =>
    match k (c :: t) g with
    | some r => some r
    | none => if p c then starLp p t g k else none

/-- The backtracking matcher in continuation style; alternatives are tried
in the Python engine's order (left alternative first, greedy longest
first, lazy shortest first), and the first complete success wins. -/
def reM : RE → List Char → Caps → ReK → Option Caps
  | .eps, s, g, k => k s g
  | .chr _, [], _, _ => none
  | .chr p, c :: t, g, k => if p c then k t g else none
  | .lit cs ci, s, g, k =>
    match litMatch ci cs s with
    | some t => k t g
    | none => none
  | .cat a b, s, g, k => reM a s g (fun t g' => reM b t g' k)
  | .alt a b, s, g, k =>
    match reM a s g k with
    | some r => some r
    | none => reM b s g k
  | .starG p, s, g, k => starGp p s g k
  | .starL p, s, g, k => starLp p s g k
  | .opt a, s, g, k =>
    match reM a s g k with
    | some r => some r
    | none => k s g
  | .grp n a, s, g, k =>
    reM a s g (fun t g' => k t ((n, s.take (s.length - t.length)) :: g'))
  | .eos, [], g, k => k [] g
  | .eos, _ :: _, _, _ => none

/-- Anchored match at the start of `s` (Python `pattern.match`). -/
def reRun (r : RE) (s : List Char) : Option Caps :=
  reM r s [] (fun _ g => some g)

/-- Unanchored search (Python `pattern.search`): first position that admits
a match, scanning left to right. -/
def reSearch (r : RE) : List Char → Option Caps
  | [] => reRun r []
  | c :: t =>
    match reRun r (c :: t) with
    | some g => some g
    | none => reSearch r t

/-- Captured text of group `n` (most recent binding). -/
def capGet (g : Caps) (n : Nat) : Option (List Char) :=
  match g.find? (fun p => p.1 == n) with
  | some p => some p.2
  | none => none

/-- Right-nested concatenation of a pattern list. -/
def reSeq : List RE → RE
  | [] => .eps
  | [r] => r
  | r :: rs => .cat r (reSeq rs)

/-- Ordered alternation of a pattern list (left-first, as in the source). -/
def reAlts : List RE → RE
  | [] => .eps
  | [r] => r
  | r :: rs => .alt r (reAlts rs)

/-- Greedy plus over a character class. -/
def plusG (p : Char → Bool) : RE := .cat (.chr p) (.starG p)

/-- Lazy plus over a character class (`.+?`). -/
def plusL (p : Char → Bool) : RE := .cat (.chr p) (.starL p)

/-- Literal from a string. -/
def litS (s : String) (ci : Bool) : RE := .lit s.data ci

/-! ### The regex heuristic extractor (`app/services/receipt_parser.py`) -/

/-- `[.,]`, the decimal separator class of the price patterns. -/
def isSepDC (c : Char) : Bool := c == '.' || c == ','

/-- `.` of the patterns: any character but a newline (`DOTALL` unset). -/
def anyNotNL (c : Char) : Bool := !(c == '\n')

/-- `[xX×]`, the explicit-quantity marker class. -/
def isXmark (c : Char) : Bool := c == 'x' || c == 'X' || c == '×'

/-- `[:\s]`, the separator class after a total keyword. -/
def isColonWs (c : Char) : Bool := c == ':' || isWsC c

/-- `[-.\s]`, the infix separator class of the VAT-number pattern. -/
def isDashDotWs (c : Char) : Bool := c == '-' || c == '.' || isWsC c

/-- `[\s.:]`, the separator class before a captured VAT code. -/
def isWsDotColon (c : Char) : Bool := isWsC c || c == '.' || c == ':'

/-- the class of digits, whitespace, dot, slash and dash forming the body
of a captured VAT number. -/
def isVatBodyC (c : Char) : Bool :=
  isDigitC c || isWsC c || c == '.' || c == '/' || c == '-'

/-- `\S`, any non-whitespace character. -/
def nonWsC (c : Char) : Bool := !isWsC c

/-- `(\d+[.,]\d{2})` as capture group `n`. -/
def priceNumGrp (n : Nat) : RE :=
  .grp n (reSeq [plusG isDigitC, .chr isSepDC, .chr isDigitC, .chr isDigitC])

/-- `^(.+?)\s+(\d+)\s*[xX×]?\s+(\d+[.,]\d{2})\s*$` — the explicit-quantity
item pattern. -/
def itemPattern : RE :=
  reSeq [.grp 1 (plusL anyNotNL), plusG isWsC, .grp 2 (plusG isDigitC),
         .starG isWsC, .opt (.chr isXmark), plusG isWsC, priceNumGrp 3,
         .starG isWsC, .eos]

/-- `^(.+?)\s+(\d+[.,]\d{2})\s*[A-Z]?\s*$` — the price-suffix item pattern. -/
def priceSuffixPattern : RE :=
  reSeq [.grp 1 (plusL anyNotNL), plusG isWsC, priceNumGrp 2,
         .starG isWsC, .opt (.chr isUpperC), .starG isWsC, .eos]

/-- `(total|summe|gesamt|amount|betrag|somme|zu zahlen|bar)` with
`IGNORECASE` — the total-keyword alternation, in source order. -/
def totalKwAlt : RE :=
  reAlts [litS "total" true, litS "summe" true, litS "gesamt" true,
          litS "amount" true, litS "betrag" true, litS "somme" true,
          litS "zu zahlen" true, litS "bar" true]

/-- `(?:total|…|bar)\s*[:\s]*(\d+[.,]\d{2})` with `IGNORECASE` — the
total-amount pattern of `_extract_total`. -/
def totalPattern : RE :=
  reSeq [totalKwAlt, .starG isWsC, .starG isColonWs, priceNumGrp 1]

/-- `_is_total_line`: does the name contain a total keyword? -/
def isTotalLine (name : List Char) : Bool := (reSearch totalKwAlt name).isSome

/-- The item a single (already stripped, non-blank) line contributes:
`item_pattern` is tried first; on failure `price_suffix_pattern`, whose
match is suppressed when the name is a total line. -/
def lineToItem (line : List Char) : Option Item :=
  match reRun itemPattern line with
  | some g =>
    match capGet g 1, capGet g 2, capGet g 3 with
    | some n, some q, some p =>
      some ⟨String.mk (pyStrip n), (digitsToNat q : Int), parsePrice p⟩
    | _, _, _ => none
  | none =>
    match reRun priceSuffixPattern line with
    | some g =>
      match capGet g 1, capGet g 2 with
      | some n, some p =>
        if isTotalLine (pyStrip n) then none
        else some ⟨String.mk (pyStrip n), 1, parsePrice p⟩
      | _, _ => none
    | none => none

/-- `_extract_items`: fold the per-line matcher over the lines in order. -/
def extract_items : List (List Char) → List Item
  | [] => []
  | l :: ls =>
    match lineToItem l with
    | some it => it :: extract_items ls
    | none => extract_items ls

/-- The parsed amount `_extract_total` reads from one line, when any. -/
def totalLineMatch (line : List Char) : Option ℚ :=
  match reSearch totalPattern line with
  | some g =>
    match capGet g 1 with
    | some p => some (parsePrice p)
    | none => none
  | none => none

/-- The `for line in reversed(lines)` loop body of `_extract_total`. -/
def extractTotalRev : List (List Char) → Option ℚ
  | [] => none
  | l :: ls =>
    match totalLineMatch l with
    | some v => some v
    | none => extractTotalRev ls

/-- `_extract_total`: first matching line scanning from the bottom. -/
def extract_total (lines : List (List Char)) : Option ℚ :=
  extractTotalRev lines.reverse

/-- Word characters for `\b` (ASCII model of `\w`). -/
def isWordChar (c : Char) : Bool := isAlphaC c || isDigitC c || c == '_'

/-- `\b` before a word-initial letter: start of text or a non-word char. -/
def boundaryBefore : Option Char → Bool
  | none => true
  | some p => !isWordChar p

/-- `\b` after a word-final letter: end of text or a non-word char. -/
def boundaryAfter : List Char → Bool
  | [] => true
  | d :: _ => !isWordChar d

/-- Does word `w` (whose characters are letters) occur `\b`-bounded at the
head of `s`, with `prev` the character before `s`? -/
def wordAt (ci : Bool) (w s : List Char) (prev : Option Char) : Bool :=
  boundaryBefore prev && litAt ci w s && boundaryAfter (s.drop w.length)

/-- Scan for a `\b`-bounded occurrence of `w`, tracking the previous char. -/
def wordOccursAux (ci : Bool) (w : List Char) : Option Char → List Char → Bool
  | prev, [] => wordAt ci w [] prev
  | prev, c :: t => wordAt ci w (c :: t) prev || wordOccursAux ci w (some c) t

/-- `re.search(r"\bw\b", s)` for a fixed all-letter word `w`. -/
def wordOccurs (ci : Bool) (w s : List Char) : Bool := wordOccursAux ci w none s

/-- One position of `\bSteuer(?:nummer)?\b` under `IGNORECASE`. -/
def steuerAt (s : List Char) (prev : Option Char) : Bool :=
  boundaryBefore prev && litAt true "steuer".data s &&
    (boundaryAfter (s.drop 6) ||
     (litAt true "nummer".data (s.drop 6) && boundaryAfter (s.drop 12)))

/-- Scan for `\bSteuer(?:nummer)?\b` under `IGNORECASE`. -/
def steuerOccursAux : Option Char → List Char → Bool
  | prev, [] => steuerAt [] prev
  | prev, c :: t => steuerAt (c :: t) prev || steuerOccursAux (some c) t

/-- `re.search(r"\bSteuer(?:nummer)?\b", s, re.IGNORECASE)`. -/
def steuerOccurs (s : List Char) : Bool := steuerOccursAux none s

/-- The German-keyword alternation of `_extract_currency` (IGNORECASE). -/
def germanKeyword (t : List Char) : Bool :=
  wordOccurs true "mwst".data t || wordOccurs true "summe".data t ||
  wordOccurs true "gesamt".data t || wordOccurs true "brutto".data t ||
  wordOccurs true "netto".data t || wordOccurs true "rechnung".data t ||
  steuerOccurs t || wordOccurs true "zahlung".data t

/-- The French-keyword alternation of `_extract_currency` (case-exact,
with `[Mm]ontant`). -/
def frenchKeyword (t : List Char) : Bool :=
  wordOccurs false "TVA".data t || wordOccurs false "TTC".data t ||
  wordOccurs false "Montant".data t || wordOccurs false "montant".data t

/-- `_extract_currency`: the fixed symbol/code table in source order, then
the language-based keyword fallbacks. -/
def extract_currency (t : List Char) : Option String :=
  if containsSub "EUR".data t || containsSub "€".data t then some "EUR"
  else if containsSub "USD".data t || containsSub "$".data t then some "USD"
  else if containsSub "GBP".data t || containsSub "£".data t then some "GBP"
  else if containsSub "CHF".data t then some "CHF"
  else if containsSub "CAD".data t || containsSub "CA$".data t then some "CAD"
  else if containsSub "CNY".data t || containsSub "¥".data t || containsSub "RMB".data t then some "CNY"
  else if containsSub "SEK".data t || wordOccurs false "kr".data t then some "SEK"
  else if containsSub "CZK".data t || containsSub "Kč".data t then some "CZK"
  else if containsSub "PLN".data t || containsSub "zł".data t then some "PLN"
  else if germanKeyword t then some "EUR"
  else if frenchKeyword t then some "EUR"
  else none

/-- First pattern of `_find_vat_number`:
a tax-ID keyword (`USt` with optional `Id`/`Nr` infixes, `VAT`, `TVA` or
`MwSt`), separators, then a captured code: up to two letters, an optional
space, a digit, and at least five more of digit/whitespace/dot/slash/dash,
under `IGNORECASE`. -/
def vatPat1 : RE :=
  reSeq [reAlts [reSeq [litS "USt" true, .opt (.chr isDashDotWs),
                        .opt (litS "Id" true), .opt (.chr isDashDotWs),
                        .opt (litS "Nr" true)],
                 litS "VAT" true, litS "TVA" true, litS "MwSt" true],
         .starG isWsDotColon,
         .grp 1 (reSeq [.opt (.chr isAlphaC), .opt (.chr isAlphaC),
                        .opt (.chr isWsC), .chr isDigitC,
                        .chr isVatBodyC, .chr isVatBodyC, .chr isVatBodyC,
                        .chr isVatBodyC, .chr isVatBodyC, .starG isVatBodyC])]

/-- Second pattern of `_find_vat_number`:
`((?:DE|FR|CH|AT|GB|IT)\s?\d{9,12})` under `IGNORECASE`. -/
def vatPat2 : RE :=
  .grp 1 (reSeq [reAlts [litS "DE" true, litS "FR" true, litS "CH" true,
                         litS "AT" true, litS "GB" true, litS "IT" true],
                 .opt (.chr isWsC),
                 .chr isDigitC, .chr isDigitC, .chr isDigitC, .chr isDigitC,
                 .chr isDigitC, .chr isDigitC, .chr isDigitC, .chr isDigitC,
                 .chr isDigitC, .opt (.chr isDigitC), .opt (.chr isDigitC),
                 .opt (.chr isDigitC)])

/-- Third pattern of `_find_vat_number`:
`(?:Tax\s*(?:ID|No|Number))[\s.:]*(\S+)` under `IGNORECASE`. -/
def vatPat3 : RE :=
  reSeq [litS "Tax" true, .starG isWsC,
         reAlts [litS "ID" true, litS "No" true, litS "Number" true],
         .starG isWsDotColon, .grp 1 (plusG nonWsC)]

/-- `_find_vat_number`: first pattern to match anywhere wins; the captured
group is stripped. -/
def find_vat_number (t : List Char) : Option String :=
  match reSearch vatPat1 t with
  | some g => (capGet g 1).map (fun l => String.mk (pyStrip l))
  | none =>
    match reSearch vatPat2 t with
    | some g => (capGet g 1).map (fun l => String.mk (pyStrip l))
    | none =>
      match reSearch vatPat3 t with
      | some g => (capGet g 1).map (fun l => String.mk (pyStrip l))
      | none => none

/-- `(?:MwSt|VAT|TVA|USt)\s*[:\s]*(\d+[.,]?\d*)\s*%` under `IGNORECASE`. -/
def vatRate1 : RE :=
  reSeq [reAlts [litS "MwSt" true, litS "VAT" true, litS "TVA" true,
                 litS "USt" true],
         .starG isWsC, .starG isColonWs,
         .grp 1 (reSeq [plusG isDigitC, .opt (.chr isSepDC), .starG isDigitC]),
         .starG isWsC, litS "%" false]

/-- `(\d+[.,]?\d*)\s*%\s*(?:MwSt|VAT|TVA|USt)` under `IGNORECASE`. -/
def vatRate2 : RE :=
  reSeq [.grp 1 (reSeq [plusG isDigitC, .opt (.chr isSepDC), .starG isDigitC]),
         .starG isWsC, litS "%" false, .starG isWsC,
         reAlts [litS "MwSt" true, litS "VAT" true, litS "TVA" true,
                 litS "USt" true]]

/-- `_extract_vat`: the captured rate with `,` → `.` and a `%` appended. -/
def extract_vat (t : List Char) : Option String :=
  match reSearch vatRate1 t with
  | some g => (capGet g 1).map (fun l =>
      String.mk (l.map (fun c => if c == ',' then '.' else c)) ++ "%")
  | none =>
    match reSearch vatRate2 t with
    | some g => (capGet g 1).map (fun l =>
        String.mk (l.map (fun c => if c == ',' then '.' else c)) ++ "%")
    | none => none

/-- Four consecutive digits at the head of the line. -/
def startsDigitRun4 : List Char → Bool
  | c1 :: c2 :: c3 :: c4 :: _ =>
    isDigitC c1 && isDigitC c2 && isDigitC c3 && isDigitC c4
  | _ => false

/-- Four consecutive digits somewhere in the line (`re.search(r"\d{4,5}")`
succeeds exactly when such a run exists). -/
def hasDigitRun4 : List Char → Bool
  | [] => false
  | c :: t => startsDigitRun4 (c :: t) || hasDigitRun4 t

/-- `re.search(r"[A-Za-zÀ-ÿ]", line)`: a letter of that exact range. -/
def hasLetter (l : List Char) : Bool :=
  l.any (fun c => isAlphaC c || (0xC0 ≤ c.toNat && c.toNat ≤ 0xFF))

/-- `re.search(r"(str|straße|street|road|avenue|ave|blvd|platz|weg)", line,
re.IGNORECASE)`. -/
def hasStreetKw (l : List Char) : Bool :=
  containsSubCI "str".data l || containsSubCI "straße".data l ||
  containsSubCI "street".data l || containsSubCI "road".data l ||
  containsSubCI "avenue".data l || containsSubCI "ave".data l ||
  containsSubCI "blvd".data l || containsSubCI "platz".data l ||
  containsSubCI "weg".data l

/-- One line of `_find_address`'s loop: the postal-code test, else the
street-keyword test. -/
def addrQualifies (l : List Char) : Bool :=
  (hasDigitRun4 l && hasLetter l) || hasStreetKw l

/-- The accumulation loop of `_find_address` over `top_lines[1:]`. -/
def findAddrParts : List (List Char) → List (List Char)
  | [] => []
  | l :: ls =>
    if hasDigitRun4 l && hasLetter l then l :: findAddrParts ls
    else if hasStreetKw l then l :: findAddrParts ls
    else findAddrParts ls

/-- `_find_address`: join the qualifying lines after the first with a
comma-space, `None` when there are none. -/
def find_address (topLines : List (List Char)) : Option String :=
  let parts := findAddrParts (topLines.drop 1)
  if parts.isEmpty then none
  else some (String.intercalate ", " (parts.map String.mk))

/-- Python line-break characters handled by `str.splitlines`; `\r\n` is
collapsed first so each remaining break is a single character. -/
def isLineBreakC (c : Char) : Bool :=
  c == '\n' || c == '\r' || c == '\x0b' || c == '\x0c' || c == '\x1c' ||
  c == '\x1d' || c == '\x1e' || c == '\x85' || c == '\u2028' || c == '\u2029'

/-- Collapse `\r\n` pairs to a single `\n` (so `splitlines` treats the pair
as one boundary). -/
def collapseCRLF : List Char → List Char
  | [] => []
  | [c] => [c]
  | c :: d :: t =>
    if c = '\x0d' ∧ d = '\n' then '\n' :: collapseCRLF t
    else c :: collapseCRLF (d :: t)

/-- Accumulating splitter over single-character line breaks. -/
def splitLinesAux : List Char → List Char → List (List Char)
  | [], acc => if acc.isEmpty then [] else [acc.reverse]
  | c :: t, acc =>
    if isLineBreakC c then acc.reverse :: splitLinesAux t []
    else splitLinesAux t (c :: acc)

/-- Python `str.splitlines()`. -/
def pySplitlines (s : List Char) : List (List Char) :=
  splitLinesAux (collapseCRLF s) []

/-- `[line.strip() for line in raw_text.splitlines() if line.strip()]`. -/
def nonBlankLines (raw : List Char) : List (List Char) :=
  ((pySplitlines raw).map pyStrip).filter (fun l => !l.isEmpty)

/-- `_extract_provider`: first non-blank line (or the sentinel), address
from the first ten lines, VAT number from the raw text. -/
def extract_provider (lines : List (List Char)) (raw : List Char) : ServiceProvider :=
  { name := match lines with
            | [] => "Unknown"
            | l :: _ => String.mk l
  , address := find_address (lines.take 10)
  , vat_number := find_vat_number raw }

/-- `RegexReceiptParser.parse` (= the public `parse_heuristic` entry). -/
def parseReceipt (raw : String) : ReceiptResponse :=
  let lines := nonBlankLines raw.data
  { service_provider := extract_provider lines raw.data
  , transaction_details :=
    { items := extract_items lines
    , currency := extract_currency raw.data
    , total_amount := extract_total lines
    , vat := extract_vat raw.data }
  , message := none }

/-! ### The LLM-reply sanitizer (`parse_json_response`, steps 1-6) -/

/-- The opening reasoning marker. -/
def thinkOpen : List Char := "<think>".data

/-- The closing reasoning marker. -/
def thinkClose : List Char := "</think>".data

/-- `re.sub(r"<think>.*?</think>", "", s, flags=re.DOTALL)`: repeatedly
drop the span from the leftmost `<think>` to the first `</think>` after
it, continuing after the removed span; an opener with no closer after it
is left in place.  The fuel is the length of the remaining input. -/
def removeThinks : Nat → List Char → List Char
  | 0, s => s
  | fuel + 1, s =>
    match findSub thinkOpen s with
    | none => s
    | some i =>
      let rest := s.drop (i + 7)
      match findSub thinkClose rest with
      | none => s
      | some j => s.take i ++ removeThinks fuel (rest.drop (j + 8))

/-- Step 3: recover from an unclosed `<think>` marker by cutting to the
first `{` at or after it, or emptying the string. -/
def cutUnclosedThink (s : List Char) : List Char :=
  match findSub thinkOpen s with
  | none => s
  | some p =>
    match findSubAux ['\x7b'] (s.drop p) 0 with
    | some b => s.drop (p + b)
    | none => []

/-- Step 4: when the string opens with a markdown fence, keep the first
fenced segment (`split("```")[1]`), dropping a leading `json` tag. -/
def stripFence (s : List Char) : List Char :=
  if litAt false "```".data s then
    let rest := s.drop 3
    let seg := match findSub "```".data rest with
               | some i => rest.take i
               | none => rest
    if litAt false "json".data seg then seg.drop 4 else seg
  else s

/-- Does the string, after `lstrip`, start with `{`? -/
def lstripStartsBrace (s : List Char) : Bool :=
  (s.dropWhile isWsC).head? == some '\x7b' 

/-- Step 5: when the string does not open (modulo whitespace) with `{`,
cut to the first `{`, or empty the string when there is none. -/
def cutToBrace (s : List Char) : List Char :=
  if s.isEmpty then s
  else if lstripStartsBrace s then s
  else
    match findSub ['\x7b'] s with
    | some b => s.drop b
    | none => []

/-- The prefix of `s` up to and including the last `}`, when one occurs
(the `rfind` of step 6). -/
def cutToLastBrace : List Char → Option (List Char)
  | [] => none
  | c :: t =>
    match cutToLastBrace t with
    | some r => some (c :: r)
    | none => if c == '\x7d' then some [c] else none

/-- Step 6: strip the content after the last `}`, when the string is
non-empty and contains one. -/
def lastBraceCut (s : List Char) : List Char :=
  if s.isEmpty then s
  else
    match cutToLastBrace s with
    | some r => r
    | none => s

/-- The whole sanitization pipeline of `parse_json_response`, steps 1-6 of
the spec: trim, drop closed reasoning blocks, recover from an unclosed
marker, strip a leading fence, cut to the first `{`, cut after the last
`}`. -/
def sanitizeL (s : List Char) : List Char :=
  let s1 := pyStrip s
  let s2 := pyStrip (removeThinks s1.length s1)
  let s3 := cutUnclosedThink s2
  let s4 := stripFence s3
  let s5 := cutToBrace s4
  lastBraceCut s5

/-! ### The JSON bridge (`json.loads`) -/

/-- A parsed JSON document. -/
inductive JVal where
  | null
  | bool (b : Bool)
  | num (q : ℚ)
  | str (s : String)
  | arr (elems : List JVal)
  | obj (fields : List (String × JVal))

/-- JSON inter-token whitespace (exactly space, tab, newline, return). -/
def isJWs (c : Char) : Bool := c == ' ' || c == '\t' || c == '\n' || c == '\r'

/-- Skip JSON whitespace. -/
def skipJWs (s : List Char) : List Char := s.dropWhile isJWs

/-- Value of a hexadecimal digit character, by code point. -/
def hexVal (c : Char) : Option Nat :=
  let n := c.toNat
  if 48 ≤ n ∧ n ≤ 57 then some (n - 48)
  else if 97 ≤ n ∧ n ≤ 102 then some (n - 87)
  else if 65 ≤ n ∧ n ≤ 70 then some (n - 55)
  else none

/-- Decode the body of a JSON string after its opening quote, handling the
escape sequences; raw control characters are rejected (strict mode), and
escaped surrogate pairs are combined (a lone surrogate, which Lean's
`Char` cannot carry, becomes U+FFFD). -/
def jStringAux : Nat → List Char → Option (List Char × List Char)
  | 0, _ => none
  | _ + 1, [] => none
  | fuel + 1, c :: t =>
    if c == '"' then some ([], t)
    else if c == '\\' then
      match t with
      | [] => none
      | e :: t2 =>
        if e == 'u' then
          match t2 with
          | h1 :: h2 :: h3 :: h4 :: t3 =>
            match hexVal h1, hexVal h2, hexVal h3, hexVal h4 with
            | some a, some b, some cc, some d =>
              let n := ((a * 16 + b) * 16 + cc) * 16 + d
              if 0xD800 ≤ n && n ≤ 0xDBFF then
                match t3 with
                | '\\' :: 'u' :: g1 :: g2 :: g3 :: g4 :: t4 =>
                  match hexVal g1, hexVal g2, hexVal g3, hexVal g4 with
                  | some a2, some b2, some c2, some d2 =>
                    let m := ((a2 * 16 + b2) * 16 + c2) * 16 + d2
                    if 0xDC00 ≤ m && m ≤ 0xDFFF then
                      let cp := 0x10000 + (n - 0xD800) * 0x400 + (m - 0xDC00)
                      (jStringAux fuel t4).map (fun pr => (Char.ofNat cp :: pr.1, pr.2))
                    else
                      (jStringAux fuel t3).map (fun pr => ('�' :: pr.1, pr.2))
                  | _, _, _, _ => none
                | _ =>
                  (jStringAux fuel t3).map (fun pr => ('�' :: pr.1, pr.2))
              else if 0xDC00 ≤ n && n ≤ 0xDFFF then
                (jStringAux fuel t3).map (fun pr => ('�' :: pr.1, pr.2))
              else
                (jStringAux fuel t3).map (fun pr => (Char.ofNat n :: pr.1, pr.2))
            | _, _, _, _ => none
          | _ => none
        else
          match
            (if e == '"' then some '"'
             else if e == '\\' then some '\\'
             else if e == '/' then some '/'
             else if e == 'b' then some '\x08'
             else if e == 'f' then some '\x0c'
             else if e == 'n' then some '\n'
             else if e == 'r' then some '\r'
             else if e == 't' then some '\t'
             else none) with
          | some d => (jStringAux fuel t2).map (fun pr => (d :: pr.1, pr.2))
          | none => none
    else if c.toNat < 0x20 then none
    else (jStringAux fuel t).map (fun pr => (c :: pr.1, pr.2))

/-- Take a maximal run of decimal digits. -/
def takeDigitsC : List Char → List Char × List Char
  | [] => ([], [])
  | c :: t =>
    if isDigitC c then
      let (ds, r) := takeDigitsC t
      (c :: ds, r)
    else ([], c :: t)

/-- Parse a JSON number token (`-?(0|[1-9][0-9]*)(\.[0-9]+)?([eE][+-]?[0-9]+)?`)
to an exact rational. -/
def jNum (s : List Char) : Option (ℚ × List Char) :=
  let (neg, s1) := match s with
                   | '-' :: t => (true, t)
                   | _ => (false, s)
  let intPart : Option (ℚ × List Char) :=
    match s1 with
    | [] => none
    | c :: t =>
      if c == '0' then some ((0 : ℚ), t)
      else if isDigitC c then
        let (ds, r) := takeDigitsC t
        some ((digitsToNat (c :: ds) : ℚ), r)
      else none
  intPart.bind (fun pr =>
    let ip := pr.1
    let fracPart : Option (ℚ × List Char) :=
      match pr.2 with
      | '.' :: t =>
        match takeDigitsC t with
        | ([], _) => none
        | (ds, r) => some ((digitsToNat ds : ℚ) / ((10 : ℚ) ^ ds.length), r)
      | other => some (0, other)
    fracPart.bind (fun fr =>
      let base : ℚ := ip + fr.1
      let expPart : Option (Int × List Char) :=
        match fr.2 with
        | 'e' :: t | 'E' :: t =>
          let (esign, t2) := match t with
                             | '+' :: u => ((1 : Int), u)
                             | '-' :: u => ((-1 : Int), u)
                             | _ => ((1 : Int), t)
          match takeDigitsC t2 with
          | ([], _) => none
          | (ds, r) => some (esign * (digitsToNat ds : Int), r)
        | other => some (0, other)
      expPart.map (fun ep =>
        let scaled : ℚ :=
          if 0 ≤ ep.1 then base * (10 : ℚ) ^ ep.1.toNat
          else base / ((10 : ℚ) ^ (-ep.1).toNat)
        ((if neg then -scaled else scaled), ep.2))))

mutual

/-- Parse one JSON value, skipping leading whitespace. -/
def jVal : Nat → List Char → Option (JVal × List Char)
  | 0, _ => none
  | fuel + 1, s0 =>
    let s := skipJWs s0
    match s with
    | [] => none
    | '\x7b' :: t =>
      (match skipJWs t with
       | '\x7d' :: r => some (.obj [], r)
       | _ => jObjFields fuel t [])
    | '[' :: t =>
      (match skipJWs t with
       | ']' :: r => some (.arr [], r)
       | _ => jArrElems fuel t [])
    | '"' :: t =>
      (jStringAux (t.length + 1) t).map (fun pr => (.str (String.mk pr.1), pr.2))
    | 't' :: 'r' :: 'u' :: 'e' :: r => some (.bool true, r)
    | 'f' :: 'a' :: 'l' :: 's' :: 'e' :: r => some (.bool false, r)
    | 'n' :: 'u' :: 'l' :: 'l' :: r => some (.null, r)
    | _ => (jNum s).map (fun pr => (.num pr.1, pr.2))

/-- Parse the members of an object after its `{` (or after a comma). -/
def jObjFields : Nat → List Char → List (String × JVal) →
    Option (JVal × List Char)
  | 0, _, _ => none
  | fuel + 1, s, acc =>
    match skipJWs s with
    | '"' :: t =>
      match jStringAux (t.length + 1) t with
      | none => none
      | some (key, r1) =>
        match skipJWs r1 with
        | ':' :: r2 =>
          match jVal fuel r2 with
          | none => none
          | some (v, r3) =>
            match skipJWs r3 with
            | ',' :: r4 => jObjFields fuel r4 (acc ++ [(String.mk key, v)])
            | '\x7d' :: r4 => some (.obj (acc ++ [(String.mk key, v)]), r4)
            | _ => none
        | _ => none
    | _ => none

/-- Parse the elements of an array after its `[` (or after a comma). -/
def jArrElems : Nat → List Char → List JVal → Option (JVal × List Char)
  | 0, _, _ => none
  | fuel + 1, s, acc =>
    match jVal fuel s with
    | none => none
    | some (v, r1) =>
      match skipJWs r1 with
      | ',' :: r2 => jArrElems fuel r2 (acc ++ [v])
      | ']' :: r2 => some (.arr (acc ++ [v]), r2)
      | _ => none

end

/-- `json.loads`: one JSON document covering the whole input (modulo
whitespace). -/
def jsonLoads (s : List Char) : Option JVal :=
  match jVal (s.length + 1) s with
  | none => none
  | some (v, rest) => if (skipJWs rest).isEmpty then some v else none

/-! ### The schema validator (`ReceiptResponse.model_validate`) -/

/-- Validation failure: a required field is absent, or a present value has
the wrong kind for its declared field type. -/
inductive VErr where
  | missing (path : String)
  | wrongKind (path : String)
deriving DecidableEq, Repr

/-- Lookup in a parsed object; a duplicated key denotes its last value, as
in a Python `dict` built by `json.loads`. -/
def jGet (kvs : List (String × JVal)) (k : String) : Option JVal :=
  match kvs.reverse.find? (fun p => p.1 == k) with
  | some p => some p.2
  | none => none

/-- Field lookup with `populate_by_name`: the wire alias first, then the
internal field name. -/
def getField (kvs : List (String × JVal)) (al nm : String) : Option JVal :=
  match jGet kvs al with
  | some v => some v
  | none => jGet kvs nm

/-- A required string field. -/
def vReqStr (path : String) : Option JVal → Except VErr String
  | none => .error (.missing path)
  | some (.str s) => .ok s
  | some _ => .error (.wrongKind path)

/-- An optional string field (absent and `null` both mean `None`). -/
def vOptStr (path : String) : Option JVal → Except VErr (Option String)
  | none => .ok none
  | some .null => .ok none
  | some (.str s) => .ok (some s)
  | some _ => .error (.wrongKind path)

/-- The numeric value of a decimal string, per the validator's lax
string-to-number coercion: optional surrounding whitespace, an optional
sign, then a decimal literal — digits with an optional fraction (at least
one digit on one side of the point) and an optional exponent.  `none` for
strings that carry no such number (`inf`/`nan` strings and digit-group
underscores are not modelled). -/
def numFromStr (s : List Char) : Option ℚ :=
  let t := pyStrip s
  let (neg, t1) :=
    match t with
    | '-' :: u => (true, u)
    | '+' :: u => (false, u)
    | _ => (false, t)
  let (ids, t2) := takeDigitsC t1
  let (fds, t3) :=
    match t2 with
    | '.' :: u => takeDigitsC u
    | _ => ([], t2)
  if ids.isEmpty && fds.isEmpty then none
  else
    let base : ℚ :=
      (digitsToNat ids : ℚ) + (digitsToNat fds : ℚ) / ((10 : ℚ) ^ fds.length)
    let expPart : Option (Int × List Char) :=
      match t3 with
      | 'e' :: u | 'E' :: u =>
        let (es, u2) :=
          match u with
          | '+' :: w => ((1 : Int), w)
          | '-' :: w => ((-1 : Int), w)
          | _ => ((1 : Int), u)
        match takeDigitsC u2 with
        | ([], _) => none
        | (eds, r) => some (es * (digitsToNat eds : Int), r)
      | _ => some (0, t3)
    match expPart with
    | none => none
    | some (e, t4) =>
      if t4.isEmpty then
        let scaled : ℚ :=
          if 0 ≤ e then base * (10 : ℚ) ^ e.toNat
          else base / ((10 : ℚ) ^ (-e).toNat)
        some (if neg then -scaled else scaled)
      else none

/-- A required integer field: a JSON number carrying an integral value,
or — lax coercion — a string whose numeric value is integral (booleans
and everything else are rejected). -/
def vReqInt (path : String) : Option JVal → Except VErr Int
  | none => .error (.missing path)
  | some (.num q) => if q.den = 1 then .ok q.num else .error (.wrongKind path)
  | some (.str s) =>
    match numFromStr s.data with
    | some q => if q.den = 1 then .ok q.num else .error (.wrongKind path)
    | none => .error (.wrongKind path)
  | some _ => .error (.wrongKind path)

/-- A required float field: any JSON number, or — lax coercion — a string
carrying a numeric value. -/
def vReqNum (path : String) : Option JVal → Except VErr ℚ
  | none => .error (.missing path)
  | some (.num q) => .ok q
  | some (.str s) =>
    match numFromStr s.data with
    | some q => .ok q
    | none => .error (.wrongKind path)
  | some _ => .error (.wrongKind path)

/-- An optional float field, with the same lax string coercion. -/
def vOptNum (path : String) : Option JVal → Except VErr (Option ℚ)
  | none => .ok none
  | some .null => .ok none
  | some (.num q) => .ok (some q)
  | some (.str s) =>
    match numFromStr s.data with
    | some q => .ok (some q)
    | none => .error (.wrongKind path)
  | some _ => .error (.wrongKind path)

/-- Validate one line item. -/
def validateItem (j : JVal) : Except VErr Item :=
  match j with
  | .obj kvs => do
    let nm ← vReqStr "Items.Item" (getField kvs "Item" "item")
    let qn ← vReqInt "Items.Quantity" (getField kvs "Quantity" "quantity")
    let pr ← vReqNum "Items.Price" (getField kvs "Price" "price")
    pure ⟨nm, qn, pr⟩
  | _ => .error (.wrongKind "Items")

/-- Validate the `ServiceProvider` object. -/
def validateSP (j : JVal) : Except VErr ServiceProvider :=
  match j with
  | .obj kvs => do
    let nm ← vReqStr "ServiceProvider.Name" (getField kvs "Name" "name")
    let ad ← vOptStr "ServiceProvider.Address" (getField kvs "Address" "address")
    let vn ← vOptStr "ServiceProvider.VATNumber" (getField kvs "VATNumber" "vat_number")
    pure ⟨nm, ad, vn⟩
  | _ => .error (.wrongKind "ServiceProvider")

/-- Validate the `TransactionDetails` object. -/
def validateTD (j : JVal) : Except VErr TransactionDetails :=
  match j with
  | .obj kvs => do
    let its ← (match getField kvs "Items" "items" with
               | none => .ok []
               | some (.arr xs) => xs.mapM validateItem
               | some _ => .error (.wrongKind "Items") : Except VErr (List Item))
    let cur ← vOptStr "Currency" (getField kvs "Currency" "currency")
    let tot ← vOptNum "TotalAmount" (getField kvs "TotalAmount" "total_amount")
    let vt ← vOptStr "VAT" (getField kvs "VAT" "vat")
    pure ⟨its, cur, tot, vt⟩
  | _ => .error (.wrongKind "TransactionDetails")

/-- `ReceiptResponse.model_validate(data)`. -/
def validateReceipt (j : JVal) : Except VErr ReceiptResponse :=
  match j with
  | .obj kvs => do
    let sp ← (match getField kvs "ServiceProvider" "service_provider" with
              | none => .error (.missing "ServiceProvider")
              | some v => validateSP v : Except VErr ServiceProvider)
    let td ← (match getField kvs "TransactionDetails" "transaction_details" with
              | none => .error (.missing "TransactionDetails")
              | some v => validateTD v : Except VErr TransactionDetails)
    let ms ← vOptStr "Message" (getField kvs "Message" "message")
    pure ⟨sp, td, ms⟩
  | _ => .error (.wrongKind "ReceiptResponse")

/-! ### Currency normalisation and monetary rounding -/

/-- `CURRENCY_ALIASES`, in the source's insertion order. -/
def CURRENCY_ALIASES : List (String × String) :=
  [("€", "EUR"), ("£", "GBP"), ("$", "USD"), ("¥", "JPY"), ("CHF", "CHF"),
   ("kr", "SEK"), ("Kč", "CZK"), ("zł", "PLN"), ("kn", "HRK"), ("Ft", "HUF"),
   ("lei", "RON"), ("лв", "BGN"), ("₹", "INR"), ("R$", "BRL"), ("₽", "RUB"),
   ("euro", "EUR"), ("euros", "EUR"), ("eur", "EUR"),
   ("dollar", "USD"), ("dollars", "USD"), ("usd", "USD"),
   ("pound", "GBP"), ("pounds", "GBP"), ("gbp", "GBP"),
   ("yen", "JPY"), ("jpy", "JPY"),
   ("franc", "CHF"), ("francs", "CHF"),
   ("krona", "SEK"), ("kronor", "SEK"), ("sek", "SEK"),
   ("koruna", "CZK"), ("czk", "CZK"),
   ("zloty", "PLN"), ("pln", "PLN"),
   ("kuna", "HRK"), ("hrk", "HRK")]

/-- ASCII lowercasing of a string (model of `str.lower()`). -/
def lowerStr (s : String) : String := String.mk (s.data.map Char.toLower)

/-- ASCII uppercasing of a string (model of `str.upper()`). -/
def upperStr (s : String) : String := String.mk (s.data.map Char.toUpper)

/-- `re.fullmatch(r"[A-Z]{3}", s)`. -/
def isUpper3 (s : String) : Bool := s.data.length == 3 && s.data.all isUpperC

/-- `_normalise_currency`: keep 3-letter uppercase codes, then exact alias
lookup, then a case-insensitive scan of the alias table in order, else the
first three characters uppercased (the original value when it strips to
nothing). -/
def normaliseCurrency : Option String → Option String
  | none => none
  | some v =>
    if v = "" then some v
    else
      let stripped := String.mk (pyStrip v.data)
      if isUpper3 stripped then some stripped
      else
        match CURRENCY_ALIASES.find? (fun p => p.1 == stripped) with
        | some p => some p.2
        | none =>
          match CURRENCY_ALIASES.find? (fun p => lowerStr p.1 == lowerStr stripped) with
          | some p => some p.2
          | none =>
            if stripped ≠ "" then some (String.mk ((upperStr stripped).data.take 3))
            else some v

/-- Round half to even on an exact rational (the floor is computed by
integer floor-division so that the definition evaluates in the kernel). -/
def roundHalfEven (x : ℚ) : ℤ :=
  let f := x.num.fdiv (x.den : ℤ)
  let r := x - (f : ℚ)
  if r < 1 / 2 then f
  else if 1 / 2 < r then f + 1
  else if f % 2 = 0 then f else f + 1

/-- `round(x, 2)` on the exact value. -/
def round2 (x : ℚ) : ℚ := (roundHalfEven (x * 100) : ℚ) / 100

/-- An item with its price rounded to two decimals. -/
def roundItem (it : Item) : Item := { it with price := round2 it.price }

/-- `_validate_amounts`: round each item price and the total to two
decimals; the declared-versus-computed cross-check only logs, so it
contributes nothing to the returned record. -/
def validate_amounts (r : ReceiptResponse) : ReceiptResponse :=
  let td := r.transaction_details
  { r with transaction_details :=
    { td with items := td.items.map roundItem,
              total_amount := td.total_amount.map round2 } }

/-- `postprocess`: normalise the currency, then validate the amounts. -/
def postprocess (r : ReceiptResponse) : ReceiptResponse :=
  validate_amounts
    { r with transaction_details :=
      { r.transaction_details with
          currency := normaliseCurrency r.transaction_details.currency } }

/-! ### The public LLM entry point (`parse_json_response`) -/

/-- The `try` body of `parse_json_response`: sanitize, reject an empty
candidate, parse, validate, post-process.  `none` is the state in which
the source raises and falls into its `except` arm. -/
def tryParseReply (s : String) : Option ReceiptResponse :=
  let cand := sanitizeL s.data
  if pyStrip cand = [] then none
  else
    match jsonLoads cand with
    | none => none
    | some v =>
      match validateReceipt v with
      | .error _ => none
      | .ok r => some (postprocess r)

/-- `parse_json_response` (= the public `normalize_llm_reply` entry): the
validated record, or the fixed fallback. -/
def parse_json_response (s : String) : ReceiptResponse :=
  match tryParseReply s with
  | some r => r
  | none => fallbackRecord

/-! ### Reference definitions transcribed from the claims' wording

These two definitions follow the words of the claims being checked, not
the source; they exist only to be compared against the source-derived
definitions above. -/

/-- Modelled from the claim/spec wording of C4: symbol aliases matched
case-sensitively only, word aliases case-insensitively, with the spec's
own symbol and word tables (§4.4 step 3). -/
def symbolAliasesClaim : List (String × String) :=
  [("€", "EUR"), ("£", "GBP"), ("$", "USD"), ("¥", "JPY"), ("kr", "SEK"),
   ("Kč", "CZK"), ("zł", "PLN"), ("kn", "HRK"), ("Ft", "HUF"), ("lei", "RON"),
   ("лв", "BGN"), ("₹", "INR"), ("R$", "BRL"), ("₽", "RUB")]

/-- Modelled from the claim/spec wording of C4: the word-alias table. -/
def wordAliasesClaim : List (String × String) :=
  [("euro", "EUR"), ("euros", "EUR"), ("eur", "EUR"),
   ("dollar", "USD"), ("dollars", "USD"), ("usd", "USD"),
   ("pound", "GBP"), ("pounds", "GBP"), ("gbp", "GBP"),
   ("yen", "JPY"), ("jpy", "JPY"),
   ("franc", "CHF"), ("francs", "CHF"),
   ("krona", "SEK"), ("kronor", "SEK"), ("sek", "SEK"),
   ("koruna", "CZK"), ("czk", "CZK"),
   ("zloty", "PLN"), ("pln", "PLN"),
   ("kuna", "HRK"), ("hrk", "HRK")]

/-- Modelled from the claim's wording of C4: accept a 3-letter uppercase
string unchanged; else consult the alias table, word aliases
case-insensitively but symbol aliases case-sensitively; else the first
three characters uppercased (original when empty). -/
def normaliseCurrencyClaim : Option String → Option String
  | none => none
  | some v =>
    if v = "" then some v
    else
      let stripped := String.mk (pyStrip v.data)
      if isUpper3 stripped then some stripped
      else
        match symbolAliasesClaim.find? (fun p => p.1 == stripped) with
        | some p => some p.2
        | none =>
          match wordAliasesClaim.find? (fun p => lowerStr p.1 == lowerStr stripped) with
          | some p => some p.2
          | none =>
            if stripped ≠ "" then some (String.mk ((upperStr stripped).data.take 3))
            else some v

/-- Modelled from the claim's wording of C9: scan the first ten non-blank
lines after line 1 (the source instead scans within the first ten lines
including line 1). -/
def findAddressClaim (lines : List (List Char)) : Option String :=
  let parts := findAddrParts ((lines.drop 1).take 10)
  if parts.isEmpty then none
  else some (String.intercalate ", " (parts.map String.mk))

/-! ### Claim C1 -/

/-- C1: for every input string, `parse_json_response` (the public
`normalize_llm_reply`) returns either the fixed fallback record or the
post-processed form of a record that parsed and validated — no third
outcome exists.  (Termination and freedom from exceptions hold by the
totality of the embedding; the disjunction is the two-outcome contract.) -/
theorem claimC1_two_outcomes (s : String) :
    parse_json_response s = fallbackRecord ∨
    ∃ v r, jsonLoads (sanitizeL s.data) = some v ∧
      validateReceipt v = .ok r ∧ parse_json_response s = postprocess r := by
  by_cases h1 : pyStrip (sanitizeL s.data) = []
  · left; simp [parse_json_response, tryParseReply, h1]
  · cases h2 : jsonLoads (sanitizeL s.data) with
    | none => left; simp [parse_json_response, tryParseReply, h1, h2]
    | some v =>
      cases h3 : validateReceipt v with
      | error e => left; simp [parse_json_response, tryParseReply, h1, h2, h3]
      | ok r =>
        right
        exact ⟨v, r, rfl, h3, by simp [parse_json_response, tryParseReply, h1, h2, h3]⟩

/-! ### Claim C2 -/

/-- C2 counterexample, refuting both directions of the claimed boundary:
(a) the reply `{"ServiceProvider":{"Name":"Unknown"},"TransactionDetails":{}}`
sanitizes, parses and validates (the `try` body succeeds), yet the
returned record still equals the fallback record — so the fallback is not
returned *exactly* on the failure conditions; and (b) a wrong-kind value
does not always trigger the fallback: the validator's lax mode coerces
numeric strings, so `"Quantity": "2"` and `"Price": "1.50"` — strings
where numbers are required — are accepted and yield a real record. -/
theorem claimC2_counterexample :
    tryParseReply "\x7b\"ServiceProvider\":\x7b\"Name\":\"Unknown\"\x7d,\"TransactionDetails\":\x7b\x7d\x7d"
      = some fallbackRecord ∧
    parse_json_response "\x7b\"ServiceProvider\":\x7b\"Name\":\"Unknown\"\x7d,\"TransactionDetails\":\x7b\x7d\x7d"
      = fallbackRecord ∧
    parse_json_response "\x7b\"ServiceProvider\":\x7b\"Name\":\"X\"\x7d,\"TransactionDetails\":\x7b\"Items\":[\x7b\"Item\":\"A\",\"Quantity\":\"2\",\"Price\":\"1.50\"\x7d]\x7d\x7d"
      = ⟨⟨"X", none, none⟩, ⟨[⟨"A", 2, 3 / 2⟩], none, none, none⟩, none⟩ := by
  refine ⟨?_, ?_, ?_⟩ <;> with_unfolding_all decide

/-- C2 (amended): the *failure substitution* happens exactly when the
sanitized candidate is empty, the candidate fails to parse as JSON, or
validation fails — a required field absent or a present value that cannot
be coerced to its declared kind (the only two `VErr` constructors), where
the validator's lax mode accepts numeric strings for numeric fields and a
wrong-kind value triggers the fallback only when that coercion fails; the
returned record *equals* the fallback record in exactly these cases or
when the reply itself validates to a record whose post-processed form is
the fallback shape. -/
theorem claimC2_amended (s : String) :
    parse_json_response s = fallbackRecord ↔
      (pyStrip (sanitizeL s.data) = [] ∨
       jsonLoads (sanitizeL s.data) = none ∨
       (∃ v e, jsonLoads (sanitizeL s.data) = some v ∧ validateReceipt v = .error e) ∨
       (∃ v r, jsonLoads (sanitizeL s.data) = some v ∧ validateReceipt v = .ok r ∧
          postprocess r = fallbackRecord)) := by
  constructor
  · intro h
    by_cases h1 : pyStrip (sanitizeL s.data) = []
    · exact Or.inl h1
    · cases h2 : jsonLoads (sanitizeL s.data) with
      | none => exact Or.inr (Or.inl rfl)
      | some v =>
        cases h3 : validateReceipt v with
        | error e => exact Or.inr (Or.inr (Or.inl ⟨v, e, rfl, h3⟩))
        | ok r =>
          have hp : parse_json_response s = postprocess r := by
            simp [parse_json_response, tryParseReply, h1, h2, h3]
          exact Or.inr (Or.inr (Or.inr ⟨v, r, rfl, h3, hp.symm.trans h⟩))
  · intro h
    by_cases h1 : pyStrip (sanitizeL s.data) = []
    · simp [parse_json_response, tryParseReply, h1]
    · rcases h with h | h | ⟨v, e, hv, he⟩ | ⟨v, r, hv, hr, hf⟩
      · exact absurd h h1
      · simp [parse_json_response, tryParseReply, h1, h]
      · simp [parse_json_response, tryParseReply, h1, hv, he]
      · simp [parse_json_response, tryParseReply, h1, hv, hr, hf]

/-- C2 witness: the amended theorem's backward direction at an input whose
sanitized candidate is empty, together with a direct check that a
non-coercible wrong-kind value (`"Quantity": "two"`, a string carrying no
number where an integer is required) also triggers the fallback. -/
theorem claimC2_witness :
    parse_json_response "this is not json" = fallbackRecord ∧
    parse_json_response "\x7b\"ServiceProvider\":\x7b\"Name\":\"X\"\x7d,\"TransactionDetails\":\x7b\"Items\":[\x7b\"Item\":\"A\",\"Quantity\":\"two\",\"Price\":1.0\x7d]\x7d\x7d"
      = fallbackRecord :=
  ⟨(claimC2_amended "this is not json").mpr (Or.inl (by decide)), by decide⟩

/-! ### Claim C3 (counterexample) -/

/-- C3 counterexample: sanitization is not idempotent on every string —
a fenced empty object sanitizes to a string with a leading newline, whose
own sanitization strips that newline. -/
theorem claimC3_counterexample :
    sanitizeL "```json\n\x7b\x7d\n```".data = '\n' :: "\x7b\x7d".data ∧
    sanitizeL (sanitizeL "```json\n\x7b\x7d\n```".data) = "\x7b\x7d".data ∧
    sanitizeL (sanitizeL "```json\n\x7b\x7d\n```".data) ≠
      sanitizeL "```json\n\x7b\x7d\n```".data := by
  refine ⟨?_, ?_, ?_⟩ <;> decide

/-! ### Claim C4 (counterexample) -/

/-- C4 counterexample: the source's fallback loop compares *every* alias
case-insensitively, symbols included, so `"KN"` resolves to `"HRK"`; under
the claim's reading (symbol aliases case-sensitive only) `"KN"` matches no
alias and would fall back to itself. -/
theorem claimC4_counterexample :
    normaliseCurrency (some "KN") = some "HRK" ∧
    normaliseCurrencyClaim (some "KN") = some "KN" ∧
    normaliseCurrency (some "KN") ≠ normaliseCurrencyClaim (some "KN") := by
  refine ⟨?_, ?_, ?_⟩ <;> decide

/-! ### Claim C5 (counterexample) -/

/-- C5 counterexample: a reply whose `Name` is the empty string validates,
so the LLM entry point returns a record with an *empty* provider name —
the non-emptiness invariant does not hold for `normalize_llm_reply`. -/
theorem claimC5_counterexample :
    (parse_json_response "\x7b\"ServiceProvider\":\x7b\"Name\":\"\"\x7d,\"TransactionDetails\":\x7b\x7d\x7d").service_provider.name
      = "" := by
  decide

/-! ### Claim C6 -/

/-- C6 counterexample: `postprocess` rewrites the currency field
(`"eur"` becomes `"EUR"`), so item prices and the total are *not* the only
fields post-processing changes. -/
theorem claimC6_counterexample :
    (postprocess ⟨⟨"Cafe", none, none⟩, ⟨[], some "eur", some 5, none⟩, none⟩).transaction_details.currency
      = some "EUR" ∧
    (postprocess ⟨⟨"Cafe", none, none⟩, ⟨[], some "eur", some 5, none⟩, none⟩).transaction_details.currency
      ≠ (⟨⟨"Cafe", none, none⟩, ⟨[], some "eur", some 5, none⟩, none⟩ : ReceiptResponse).transaction_details.currency := by
  constructor <;> decide

/-- C6 (amended): a declared total is never replaced by the computed sum of
line items — the returned total is always the declared value rounded to two
decimals, whatever the discrepancy; `_validate_amounts` rounds only item
prices and the total and changes nothing else, and `postprocess`
additionally rewrites only the currency (to its normalised form). -/
theorem claimC6_amended (r : ReceiptResponse) (t : ℚ)
    (h : r.transaction_details.total_amount = some t) :
    (validate_amounts r).transaction_details.total_amount = some (round2 t) ∧
    (validate_amounts r).transaction_details.items =
      r.transaction_details.items.map roundItem ∧
    (validate_amounts r).service_provider = r.service_provider ∧
    (validate_amounts r).message = r.message ∧
    (validate_amounts r).transaction_details.currency = r.transaction_details.currency ∧
    (validate_amounts r).transaction_details.vat = r.transaction_details.vat ∧
    (postprocess r).transaction_details.total_amount = some (round2 t) ∧
    (postprocess r).transaction_details.items =
      r.transaction_details.items.map roundItem ∧
    (postprocess r).transaction_details.currency =
      normaliseCurrency r.transaction_details.currency ∧
    (postprocess r).transaction_details.vat = r.transaction_details.vat ∧
    (postprocess r).service_provider = r.service_provider ∧
    (postprocess r).message = r.message := by
  refine ⟨?_, ?_, ?_, ?_, ?_, ?_, ?_, ?_, ?_, ?_, ?_, ?_⟩ <;>
    simp [validate_amounts, postprocess, h]

/-- C6 witness: a record whose declared total `5` differs from the item
sum `20` by far more than `0.01` keeps the declared total (and only the
currency changes besides the rounds). -/
theorem claimC6_witness :
    (validate_amounts ⟨⟨"Cafe", none, none⟩, ⟨[⟨"A", 2, 10⟩], some "eur", some 5, none⟩, none⟩).transaction_details.total_amount
      = some 5 ∧
    (⟨"A", (2 : Int), (10 : ℚ)⟩ : Item).price * 2 - 5 > 1 / 100 := by
  constructor
  · have h1 := (claimC6_amended
      ⟨⟨"Cafe", none, none⟩, ⟨[⟨"A", 2, 10⟩], some "eur", some 5, none⟩, none⟩ 5 rfl).1
    rwa [show round2 (5 : ℚ) = 5 from by with_unfolding_all decide] at h1
  · norm_num

/-! ### Claim C8 -/

/-- C8: on each line the explicit-quantity pattern is tried first (the line
`"Latte 2 x 4.29"` matches both patterns, and the explicit-quantity parse
wins), and a price-suffix match whose name is a total keyword is
suppressed (`"Total 9.28"` matches the price-suffix pattern but yields no
item). -/
theorem claimC8_item_matching :
    lineToItem "Latte 2 x 4.29".data = some ⟨"Latte", 2, 429 / 100⟩ ∧
    (reRun priceSuffixPattern "Latte 2 x 4.29".data).isSome = true ∧
    (reRun priceSuffixPattern "Total 9.28".data).isSome = true ∧
    isTotalLine (pyStrip "Total".data) = true ∧
    lineToItem "Total 9.28".data = none ∧
    extract_items ["Latte 2 x 4.29".data, "Total 9.28".data] =
      [⟨"Latte", 2, 429 / 100⟩] := by
  refine ⟨?_, ?_, ?_, ?_, ?_, ?_⟩ <;> with_unfolding_all decide

/-! ### Claim C5 (amended) -/

/-- Every member of `nonBlankLines` is a non-empty line. -/
theorem nonBlankLines_mem_ne_nil {raw l : List Char}
    (h : l ∈ nonBlankLines raw) : l ≠ [] := by
  have hp := List.of_mem_filter h
  simpa [List.isEmpty_iff] using hp

/-- C5 (amended): the heuristic entry point always returns a non-empty
provider name, and returns the sentinel exactly when the text has no
non-blank line or its first non-blank line is literally `Unknown`; the
non-emptiness invariant does *not* extend to the LLM entry point (see the
counterexample). -/
theorem claimC5_amended (raw : String) :
    (parseReceipt raw).service_provider.name ≠ "" ∧
    ((parseReceipt raw).service_provider.name = "Unknown" ↔
      nonBlankLines raw.data = [] ∨
      (nonBlankLines raw.data).head? = some "Unknown".data) := by
  cases h : nonBlankLines raw.data with
  | nil =>
    refine ⟨?_, ?_⟩
    · simp [parseReceipt, extract_provider, h]
    · simp [parseReceipt, extract_provider, h]
  | cons l ls =>
    have hl : l ≠ [] := nonBlankLines_mem_ne_nil (h ▸ List.mem_cons_self l ls)
    refine ⟨?_, ?_⟩
    · show ¬ _ = _
      intro he
      apply hl
      have hname : (parseReceipt raw).service_provider.name = String.mk l := by
        simp [parseReceipt, extract_provider, h]
      rw [hname] at he
      have := congrArg String.data he
      simpa using this
    · have hname : (parseReceipt raw).service_provider.name = String.mk l := by
        simp [parseReceipt, extract_provider, h]
      rw [hname]
      constructor
      · intro he
        right
        have : l = "Unknown".data := by
          have := congrArg String.data he
          simpa using this
        simp [this]
      · intro hd
        rcases hd with hd | hd
        · exact absurd hd (by simp)
        · simp only [List.head?_cons, Option.some.injEq] at hd
          rw [hd]

/-- C5 witness: the amended theorem applied at the empty text (name is the
sentinel) and at a one-line text (name is that line, hence non-empty). -/
theorem claimC5_witness :
    (parseReceipt "").service_provider.name = "Unknown" ∧
    (parseReceipt "Cafe Mila").service_provider.name ≠ "" :=
  ⟨(claimC5_amended "").2.mpr (Or.inl (by decide)), (claimC5_amended "Cafe Mila").1⟩

/-! ### Claim C7 -/

/-- Lines that match nothing contribute nothing to the reverse scan. -/
theorem extractTotalRev_append_none {xs : List (List Char)} (ys : List (List Char))
    (h : ∀ l ∈ xs, totalLineMatch l = none) :
    extractTotalRev (xs ++ ys) = extractTotalRev ys := by
  induction xs with
  | nil => rfl
  | cons a t ih =>
    have ha : totalLineMatch a = none := h a (List.mem_cons_self a t)
    simpa [extractTotalRev, ha] using ih (fun l hl => h l (List.mem_cons_of_mem a hl))

/-- The reverse scan fails exactly when no line matches. -/
theorem extractTotalRev_eq_none_iff (xs : List (List Char)) :
    extractTotalRev xs = none ↔ ∀ l ∈ xs, totalLineMatch l = none := by
  induction xs with
  | nil => simp [extractTotalRev]
  | cons a t ih =>
    cases ha : totalLineMatch a with
    | some v => simp [extractTotalRev, ha]
    | none => simp [extractTotalRev, ha, ih]

/-- C7: `_extract_total` scans the non-blank lines bottom-up and returns
the parsed amount of the bottommost line matching the
keyword-then-number pattern (`None` exactly when no line matches); for
text ending in `"Summe 9.28"` the parsed total is `9.28`. -/
theorem claimC7_total_extraction (pre post : List (List Char)) (l : List Char) (v : ℚ)
    (hl : totalLineMatch l = some v)
    (hpost : ∀ l' ∈ post, totalLineMatch l' = none) :
    extract_total (pre ++ l :: post) = some v ∧
    (∀ lines : List (List Char),
      extract_total lines = none ↔ ∀ l' ∈ lines, totalLineMatch l' = none) ∧
    (parseReceipt "Kaffeehaus\nLatte 2 x 4.29\nSumme 9.28").transaction_details.total_amount
      = some (928 / 100 : ℚ) := by
  refine ⟨?_, ?_, ?_⟩
  · unfold extract_total
    rw [List.reverse_append, List.reverse_cons, List.append_assoc]
    rw [extractTotalRev_append_none (([l]) ++ pre.reverse)
        (fun x hx => hpost x (List.mem_reverse.mp hx))]
    simp [extractTotalRev, hl]
  · intro lines
    unfold extract_total
    rw [extractTotalRev_eq_none_iff]
    constructor
    · intro hh l' hl' ; exact hh l' (List.mem_reverse.mpr hl')
    · intro hh l' hl' ; exact hh l' (List.mem_reverse.mp hl')
  · with_unfolding_all decide

/-- C7 witness: a total line above the bottommost one is ignored — the
reverse scan returns the value of the lowest matching line. -/
theorem claimC7_witness :
    extract_total ["Total 5.00".data, "Summe 9.28".data, "Latte 4.29".data]
      = some (928 / 100 : ℚ) :=
  (claimC7_total_extraction ["Total 5.00".data] ["Latte 4.29".data]
    "Summe 9.28".data (928 / 100)
    (by with_unfolding_all decide) (by with_unfolding_all decide)).1

/-! ### Claim C9 -/

/-- The qualifying-line loop of `_find_address` is a filter by the
postal-code-or-street-keyword test. -/
theorem findAddrParts_eq_filter (ls : List (List Char)) :
    findAddrParts ls = ls.filter addrQualifies := by
  induction ls with
  | nil => rfl
  | cons a t ih =>
    by_cases h1 : (hasDigitRun4 a && hasLetter a) = true
    · simp [findAddrParts, List.filter_cons, addrQualifies, h1, ih]
    · by_cases h2 : hasStreetKw a = true
      · simp [findAddrParts, List.filter_cons, addrQualifies, h1, h2, ih]
      · simp [findAddrParts, List.filter_cons, addrQualifies, h1, h2, ih]

set_option maxRecDepth 4096 in
/-- C9 counterexample: in an 11-line text whose only qualifying line is
line 11, the source finds no address (it scans `lines[:10][1:]`, the nine
lines 2-10), while the claim's window — the first ten non-blank lines
*after* line 1 — contains line 11 and yields `"Road"`. -/
theorem claimC9_counterexample :
    (parseReceipt "Top\na\nb\nc\nd\ne\nf\ng\nh\ni\nRoad").service_provider.address
      = none ∧
    findAddressClaim (nonBlankLines "Top\na\nb\nc\nd\ne\nf\ng\nh\ni\nRoad".data)
      = some "Road" := by
  constructor <;> with_unfolding_all decide

set_option maxRecDepth 8192 in
set_option maxHeartbeats 2000000 in
/-- C9 (amended): the address is built from the window `lines[:10][1:]` —
the first *nine* non-blank lines after line 1 — by joining the qualifying
lines with a comma-space in document order; it is `None` exactly when no
window line qualifies; the three-line `Shop` example includes both lines
2 and 3. -/
theorem claimC9_amended (raw : String) :
    (parseReceipt raw).service_provider.address =
      (let parts := (((nonBlankLines raw.data).take 10).drop 1).filter addrQualifies
       if parts.isEmpty then none
       else some (String.intercalate ", " (parts.map String.mk))) ∧
    ((parseReceipt raw).service_provider.address = none ↔
      ∀ l ∈ ((nonBlankLines raw.data).take 10).drop 1, addrQualifies l = false) ∧
    (parseReceipt "Shop\nMain Street 5\n04109 Leipzig").service_provider.address
      = some "Main Street 5, 04109 Leipzig" := by
  have haddr : (parseReceipt raw).service_provider.address =
      find_address ((nonBlankLines raw.data).take 10) := by
    simp [parseReceipt, extract_provider]
  refine ⟨?_, ?_, ?_⟩
  · rw [haddr]
    unfold find_address
    rw [findAddrParts_eq_filter]
  · rw [haddr]
    unfold find_address
    rw [findAddrParts_eq_filter]
    rcases h : (((nonBlankLines raw.data).take 10).drop 1).filter addrQualifies
      with _ | ⟨p, ps⟩
    · simp only [h, List.isEmpty_nil, if_true, true_iff]
      intro l hl
      by_contra hq
      have hmem : l ∈ (((nonBlankLines raw.data).take 10).drop 1).filter addrQualifies :=
        List.mem_filter.mpr ⟨hl, by simpa using hq⟩
      rw [h] at hmem
      exact absurd hmem (List.not_mem_nil l)
    · simp only [h, List.isEmpty_cons, Bool.false_eq_true, if_false]
      constructor
      · intro hsome
        exact absurd hsome (by simp)
      · intro hall
        exfalso
        have hp : p ∈ (((nonBlankLines raw.data).take 10).drop 1).filter addrQualifies := by
          rw [h]; exact List.mem_cons_self p ps
        have hq := List.mem_filter.mp hp
        have := hall p hq.1
        rw [this] at hq
        exact absurd hq.2 (by simp)
  · with_unfolding_all decide

set_option maxRecDepth 4096 in
/-- C9 witness: the amended theorem's none-characterization at a two-line
text whose second line does not qualify. -/
theorem claimC9_witness :
    (parseReceipt "A\nB").service_provider.address = none :=
  (claimC9_amended "A\nB").2.1.mpr (by with_unfolding_all decide)

/-! ### Claim C3 (amended) -/

/-- Dropping a prefix never lengthens a list. -/
theorem length_dropWhile_le' (p : Char → Bool) (l : List Char) :
    (l.dropWhile p).length ≤ l.length := by
  induction l with
  | nil => simp
  | cons c t ih =>
    by_cases h : p c = true
    · simp only [List.dropWhile_cons, h, if_true]
      exact Nat.le_succ_of_le ih
    · simp [List.dropWhile_cons, h]

/-- A string equal to its own strip carries no leading whitespace. -/
theorem pyStrip_fix_head {c : Char} {t : List Char}
    (h : pyStrip (c :: t) = c :: t) : isWsC c = false := by
  by_contra hc
  rw [Bool.not_eq_false] at hc
  have h1 : (pyStrip (c :: t)).length ≤ ((c :: t).dropWhile isWsC).length := by
    unfold pyStrip
    rw [List.length_reverse]
    calc (((c :: t).dropWhile isWsC).reverse.dropWhile isWsC).length
        ≤ ((c :: t).dropWhile isWsC).reverse.length := length_dropWhile_le' _ _
      _ = ((c :: t).dropWhile isWsC).length := List.length_reverse _
  have h2 : ((c :: t).dropWhile isWsC).length ≤ t.length := by
    rw [List.dropWhile_cons, if_pos hc]
    exact length_dropWhile_le' _ _
  rw [h] at h1
  simp only [List.length_cons] at h1
  omega

/-- `removeThinks` is the identity when no opener occurs. -/
theorem removeThinks_no_think (fuel : Nat) (s : List Char)
    (h : findSub thinkOpen s = none) : removeThinks fuel s = s := by
  cases fuel with
  | zero => rfl
  | succ n => simp [removeThinks, h]

/-- Step 3 is the identity when no opener occurs. -/
theorem cutUnclosedThink_no_think {s : List Char}
    (h : findSub thinkOpen s = none) : cutUnclosedThink s = s := by
  simp [cutUnclosedThink, h]

/-- A successful substring search yields a literal match at the found
index (auxiliary version, tracking the start offset). -/
theorem findSubAux_litAt (w : List Char) :
    ∀ (s : List Char) (i j : Nat), findSubAux w s i = some j →
      i ≤ j ∧ litAt false w (s.drop (j - i)) = true := by
  intro s
  induction s with
  | nil =>
    intro i j h
    by_cases hw : litAt false w [] = true
    · simp [findSubAux, hw] at h
      subst h
      simpa using hw
    · simp [findSubAux, hw] at h
  | cons c t ih =>
    intro i j h
    by_cases hw : litAt false w (c :: t) = true
    · simp [findSubAux, hw] at h
      subst h
      simpa using hw
    · simp only [findSubAux, hw, if_false, Bool.false_eq_true] at h
      obtain ⟨h1, h2⟩ := ih (i + 1) j h
      constructor
      · omega
      · have : j - i = (j - (i + 1)) + 1 := by omega
        rw [this]
        simpa using h2

/-- A successful single-character search pins the character found. -/
theorem findSub_single_head {c : Char} {s : List Char} {b : Nat}
    (h : findSub [c] s = some b) : (s.drop b).head? = some c := by
  obtain ⟨-, h2⟩ := findSubAux_litAt [c] s 0 b h
  rw [Nat.sub_zero] at h2
  cases hd : s.drop b with
  | nil => rw [hd] at h2 ; simp [litAt] at h2
  | cons d t =>
    rw [hd] at h2
    simp [litAt] at h2
    simp [h2]

/-- The shape invariant of a sanitized string: empty, or starting (after
leading whitespace) with an opening brace. -/
def braceShape (s : List Char) : Prop :=
  s = [] ∨ (s.dropWhile isWsC).head? = some '\x7b'

/-- Step 5 establishes the brace shape. -/
theorem cutToBrace_shape (s : List Char) : braceShape (cutToBrace s) := by
  unfold braceShape cutToBrace
  by_cases h0 : s.isEmpty = true
  · left
    simp [h0, List.isEmpty_iff.mp h0]
  · rw [if_neg h0]
    by_cases h1 : lstripStartsBrace s = true
    · rw [if_pos h1]
      right
      unfold lstripStartsBrace at h1
      simpa using h1
    · rw [if_neg h1]
      cases hf : findSub ['\x7b'] s with
      | none => left ; rfl
      | some b =>
        right
        have hh := findSub_single_head hf
        cases hd : s.drop b with
        | nil => rw [hd] at hh ; simp at hh
        | cons d t =>
          rw [hd] at hh
          simp only [List.head?_cons, Option.some.injEq] at hh
          subst hh
          simp only []
          rw [hd, List.dropWhile_cons]
          simp [show isWsC '\x7b' = false from by decide]

/-- The step-6 scan fails exactly when no closing brace occurs. -/
theorem cutToLastBrace_none_iff (s : List Char) :
    cutToLastBrace s = none ↔ '\x7d' ∉ s := by
  induction s with
  | nil => simp [cutToLastBrace]
  | cons c t ih =>
    cases hr : cutToLastBrace t with
    | some r =>
      simp only [cutToLastBrace, hr]
      have hmem : '\x7d' ∈ t := by
        by_contra hnm
        rw [← ih] at hnm
        simp [hnm] at hr
      constructor
      · intro h ; exact absurd h (by simp)
      · intro h ; exact absurd (List.mem_cons_of_mem c hmem) h
    | none =>
      simp only [cutToLastBrace, hr]
      by_cases hc : c == '\x7d'
      · simp only [hc, if_true]
        constructor
        · intro h ; exact absurd h (by simp)
        · intro h
          exact absurd (by simp [beq_iff_eq.mp hc] : '\x7d' ∈ c :: t) h
      · simp only [hc, Bool.false_eq_true, if_false]
        constructor
        · intro _
          intro hmem
          rcases List.mem_cons.mp hmem with h | h
          · exact absurd (h ▸ hc) (by simp)
          · exact (ih.mp hr) h
        · intro _ ; trivial

/-- The step-6 scan returns a prefix of its input ending in `}`. -/
theorem cutToLastBrace_spec (s : List Char) (r : List Char)
    (h : cutToLastBrace s = some r) :
    (∃ t, s = r ++ t) ∧ (∃ r0, r = r0 ++ ['\x7d']) := by
  induction s generalizing r with
  | nil => simp [cutToLastBrace] at h
  | cons c t ih =>
    cases hr : cutToLastBrace t with
    | some r' =>
      rw [cutToLastBrace, hr] at h
      simp only [Option.some.injEq] at h
      obtain ⟨⟨t', ht⟩, ⟨r0, hr0⟩⟩ := ih r' hr
      refine ⟨⟨t', by rw [← h, ht] ; rfl⟩, ⟨c :: r0, by rw [← h, hr0] ; rfl⟩⟩
    | none =>
      rw [cutToLastBrace, hr] at h
      by_cases hc : c == '\x7d'
      · rw [if_pos hc] at h
        simp only [Option.some.injEq] at h
        have hceq : c = '\x7d' := beq_iff_eq.mp hc
        refine ⟨⟨t, by rw [← h] ; rfl⟩, ⟨[], by rw [← h, hceq] ; simp⟩⟩
      · rw [if_neg hc] at h
        exact absurd h (by simp)

/-- A string ending in `}` is returned whole by the step-6 scan. -/
theorem cutToLastBrace_ends (r0 : List Char) :
    cutToLastBrace (r0 ++ ['\x7d']) = some (r0 ++ ['\x7d']) := by
  induction r0 with
  | nil => rfl
  | cons c t ih => simp [cutToLastBrace, ih]

/-- Dropping whitespace distributes over an append whose left part holds a
non-whitespace character. -/
theorem dropWhile_append_left {p : Char → Bool} (r t : List Char)
    (hr : ∃ x ∈ r, p x = false) :
    (r ++ t).dropWhile p = r.dropWhile p ++ t := by
  induction r with
  | nil => simp at hr
  | cons c r' ih =>
    by_cases hc : p c = true
    · have hr' : ∃ x ∈ r', p x = false := by
        obtain ⟨x, hx, hpx⟩ := hr
        rcases List.mem_cons.mp hx with h | h
        · exact absurd (h ▸ hpx) (by simp [hc])
        · exact ⟨x, h, hpx⟩
      simp [List.dropWhile_cons, hc, ih hr']
    · simp [List.dropWhile_cons, hc]

/-- Step 6 preserves the brace shape. -/
theorem lastBraceCut_shape_preserved {s : List Char} (h : braceShape s) :
    braceShape (lastBraceCut s) := by
  rcases h with h | h
  · subst h ; left ; rfl
  · unfold lastBraceCut
    by_cases h0 : s.isEmpty = true
    · rw [if_pos h0] ; right ; exact h
    · rw [if_neg h0]
      cases hc : cutToLastBrace s with
      | none => right ; exact h
      | some r =>
        right
        show (r.dropWhile isWsC).head? = some '\x7b'
        obtain ⟨⟨t, ht⟩, ⟨r0, hr0⟩⟩ := cutToLastBrace_spec s r hc
        have hin : ∃ x ∈ r, isWsC x = false :=
          ⟨'\x7d', by simp [hr0], by decide⟩
        rw [ht, dropWhile_append_left r t hin] at h
        cases hdw : r.dropWhile isWsC with
        | nil =>
          exfalso
          rw [List.dropWhile_eq_nil_iff] at hdw
          obtain ⟨x, hx, hpx⟩ := hin
          exact absurd (hdw x hx) (by simp [hpx])
        | cons d u =>
          rw [hdw] at h
          simp only [List.cons_append, List.head?_cons] at h
          simpa using h

/-- Every sanitized string has the brace shape. -/
theorem sanitizeL_shape (x : List Char) : braceShape (sanitizeL x) := by
  unfold sanitizeL
  exact lastBraceCut_shape_preserved (cutToBrace_shape _)

/-- Every sanitized string either contains no `}` or ends with `}`. -/
theorem sanitizeL_ends (x : List Char) :
    '\x7d' ∉ sanitizeL x ∨ (∃ r0, sanitizeL x = r0 ++ ['\x7d']) := by
  unfold sanitizeL lastBraceCut
  by_cases h0 : (cutToBrace
      (stripFence (cutUnclosedThink (pyStrip
        (removeThinks (pyStrip x).length (pyStrip x)))))).isEmpty = true
  · rw [if_pos h0]
    left
    rw [List.isEmpty_iff.mp h0]
    simp
  · rw [if_neg h0]
    cases hc : cutToLastBrace (cutToBrace
      (stripFence (cutUnclosedThink (pyStrip
        (removeThinks (pyStrip x).length (pyStrip x)))))) with
    | none => left ; exact (cutToLastBrace_none_iff _).mp hc
    | some r => right ; exact (cutToLastBrace_spec _ r hc).2

/-- C3 (amended): sanitization is idempotent on every string whose
sanitized result has no leading or trailing whitespace and contains no
`<think>` marker; a second pass is then the identity through all six
steps. -/
theorem claimC3_amended (x : List Char)
    (hstrip : pyStrip (sanitizeL x) = sanitizeL x)
    (hthink : findSub thinkOpen (sanitizeL x) = none) :
    sanitizeL (sanitizeL x) = sanitizeL x := by
  have hends := sanitizeL_ends x
  have hshape := sanitizeL_shape x
  cases hy : sanitizeL x with
  | nil => decide
  | cons c t =>
    rw [hy] at hstrip hthink hends hshape
    rcases hshape with hnil | hbrace
    · exact absurd hnil (by simp)
    · have hcne : isWsC c = false := pyStrip_fix_head hstrip
      have hcb : c = '\x7b' := by
        rw [List.dropWhile_cons, hcne] at hbrace
        simpa using hbrace
      subst hcb
      have h2 : removeThinks ('\x7b' :: t).length ('\x7b' :: t) = '\x7b' :: t :=
        removeThinks_no_think _ _ hthink
      have h3 : cutUnclosedThink ('\x7b' :: t) = '\x7b' :: t :=
        cutUnclosedThink_no_think hthink
      have h4 : stripFence ('\x7b' :: t) = '\x7b' :: t := by
        unfold stripFence
        rw [if_neg]
        rw [show "```".data = ['\x60', '\x60', '\x60'] from rfl]
        simp [litAt]
      have h5 : cutToBrace ('\x7b' :: t) = '\x7b' :: t := by
        unfold cutToBrace
        rw [if_neg (by simp)]
        rw [if_pos]
        simp [lstripStartsBrace, List.dropWhile_cons,
              show isWsC '\x7b' = false from by decide]
      have h6 : lastBraceCut ('\x7b' :: t) = '\x7b' :: t := by
        rcases hends with hno | ⟨r0, hr0⟩
        · unfold lastBraceCut
          rw [if_neg (by simp)]
          rw [(cutToLastBrace_none_iff _).mpr hno]
        · rw [hr0]
          unfold lastBraceCut
          rw [if_neg (by simp)]
          rw [cutToLastBrace_ends r0]
      show lastBraceCut (cutToBrace (stripFence (cutUnclosedThink (pyStrip
        (removeThinks (pyStrip ('\x7b' :: t)).length
          (pyStrip ('\x7b' :: t))))))) = '\x7b' :: t
      rw [hstrip, h2, hstrip, h3, h4, h5, h6]

/-- C3 witness: the amended theorem applied at a plain JSON object, where
both hypotheses hold. -/
theorem claimC3_witness :
    sanitizeL (sanitizeL "\x7b\"a\":1\x7d".data) = sanitizeL "\x7b\"a\":1\x7d".data :=
  claimC3_amended "\x7b\"a\":1\x7d".data (by decide) (by decide)

/-! ### Claim C4 (amended) -/

/-- In a table whose keys (under `f`) are distinct, `find?` by an entry's
key returns exactly that entry. -/
theorem find?_key_of_mem {l : List (String × String)} {a b : String}
    (f : String × String → String)
    (hnd : (l.map f).Nodup) (hm : (a, b) ∈ l) :
    l.find? (fun p => f p == f (a, b)) = some (a, b) := by
  induction l with
  | nil => simp at hm
  | cons hd tl ih =>
    rcases List.mem_cons.mp hm with h | h
    · rw [← h]
      simp [List.find?]
    · have hne : (f hd == f (a, b)) = false := by
        rw [beq_eq_false_iff_ne]
        intro he
        have hmem : f (a, b) ∈ tl.map f := List.mem_map_of_mem f h
        rw [← he] at hmem
        exact (List.nodup_cons.mp hnd).1 hmem
      rw [List.find?_cons, hne]
      exact ih (List.nodup_cons.mp hnd).2 h

/-- C4 (amended): `_normalise_currency` keeps a 3-letter uppercase
(stripped) value; otherwise it first looks the stripped value up exactly
in the alias table, then scans *all* aliases case-insensitively (symbols
included), and only then falls back to the first three characters
uppercased (the original value when the strip is empty).  In particular
`€ → EUR`, `eur → EUR`, `XYZ → XYZ` — and also `KN → HRK`. -/
theorem claimC4_amended :
    (∀ s : String, isUpper3 (String.mk (pyStrip s.data)) = true →
       normaliseCurrency (some s) = some (String.mk (pyStrip s.data))) ∧
    (∀ s a code, s ≠ "" → isUpper3 (String.mk (pyStrip s.data)) = false →
       (a, code) ∈ CURRENCY_ALIASES → a = String.mk (pyStrip s.data) →
       normaliseCurrency (some s) = some code) ∧
    (∀ s a code, s ≠ "" → isUpper3 (String.mk (pyStrip s.data)) = false →
       (∀ p ∈ CURRENCY_ALIASES, p.1 ≠ String.mk (pyStrip s.data)) →
       (a, code) ∈ CURRENCY_ALIASES →
       lowerStr a = lowerStr (String.mk (pyStrip s.data)) →
       normaliseCurrency (some s) = some code) ∧
    (∀ s : String, s ≠ "" → isUpper3 (String.mk (pyStrip s.data)) = false →
       (∀ p ∈ CURRENCY_ALIASES, p.1 ≠ String.mk (pyStrip s.data) ∧
          lowerStr p.1 ≠ lowerStr (String.mk (pyStrip s.data))) →
       normaliseCurrency (some s) =
         (if String.mk (pyStrip s.data) ≠ "" then
            some (String.mk ((upperStr (String.mk (pyStrip s.data))).data.take 3))
          else some s)) ∧
    normaliseCurrency (some "€") = some "EUR" ∧
    normaliseCurrency (some "eur") = some "EUR" ∧
    normaliseCurrency (some "XYZ") = some "XYZ" ∧
    normaliseCurrency (some "KN") = some "HRK" := by
  refine ⟨?_, ?_, ?_, ?_, by decide, by decide, by decide, by decide⟩
  · intro s h3
    have hs : s ≠ "" := by
      intro he
      rw [he] at h3
      exact absurd h3 (by decide)
    simp only [normaliseCurrency]
    rw [if_neg hs, if_pos h3]
  · intro s a code hs h3 hm ha
    have hfind : CURRENCY_ALIASES.find?
        (fun p => p.1 == String.mk (pyStrip s.data)) = some (a, code) := by
      rw [← ha]
      exact find?_key_of_mem (fun p => p.1) (by decide) hm
    simp only [normaliseCurrency]
    rw [if_neg hs, if_neg (by simp [h3]), hfind]
  · intro s a code hs h3 hnone hm hlow
    have hf1 : CURRENCY_ALIASES.find?
        (fun p => p.1 == String.mk (pyStrip s.data)) = none := by
      rw [List.find?_eq_none]
      intro p hp
      simpa using hnone p hp
    have hf2 : CURRENCY_ALIASES.find?
        (fun p => lowerStr p.1 == lowerStr (String.mk (pyStrip s.data))) = some (a, code) := by
      rw [← hlow]
      exact find?_key_of_mem (fun p => lowerStr p.1) (by with_unfolding_all decide) hm
    simp only [normaliseCurrency]
    rw [if_neg hs, if_neg (by simp [h3]), hf1, hf2]
  · intro s hs h3 hboth
    have hf1 : CURRENCY_ALIASES.find?
        (fun p => p.1 == String.mk (pyStrip s.data)) = none := by
      rw [List.find?_eq_none]
      intro p hp
      simpa using (hboth p hp).1
    have hf2 : CURRENCY_ALIASES.find?
        (fun p => lowerStr p.1 == lowerStr (String.mk (pyStrip s.data))) = none := by
      rw [List.find?_eq_none]
      intro p hp
      simpa using (hboth p hp).2
    simp only [normaliseCurrency]
    rw [if_neg hs, if_neg (by simp [h3]), hf1, hf2]

/-- C4 witness: every branch of the amended theorem exercised — a 3-letter
code kept, an exact symbol hit, a case-insensitive word hit after an exact
miss, and the uppercased-prefix fallback. -/
theorem claimC4_witness :
    normaliseCurrency (some "EUR") = some "EUR" ∧
    normaliseCurrency (some "Ft") = some "HUF" ∧
    normaliseCurrency (some "KUNA") = some "HRK" ∧
    normaliseCurrency (some "zzz9") = some "ZZZ" := by
  refine ⟨?_, ?_, ?_, ?_⟩
  · have h := claimC4_amended.1 "EUR" (by decide)
    rwa [show String.mk (pyStrip "EUR".data) = "EUR" from by decide] at h
  · exact claimC4_amended.2.1 "Ft" "Ft" "HUF" (by decide) (by decide)
      (by decide) (by decide)
  · exact claimC4_amended.2.2.1 "KUNA" "kuna" "HRK" (by decide) (by decide)
      (by decide) (by decide) (by with_unfolding_all decide)
  · have h := claimC4_amended.2.2.2.1 "zzz9" (by decide) (by decide)
      (by with_unfolding_all decide)
    rwa [show (if String.mk (pyStrip "zzz9".data) ≠ "" then
          some (String.mk ((upperStr (String.mk (pyStrip "zzz9".data))).data.take 3))
        else some "zzz9") = some "ZZZ" from by decide] at h

/-! ### Claim C10: whitespace-only input -/

/-- Enumerate the ASCII whitespace characters. -/
theorem isWs_cases {c : Char} (h : isWsC c = true) :
    c = ' ' ∨ c = '\t' ∨ c = '\n' ∨ c = '\r' ∨ c = '\x0b' ∨ c = '\x0c' := by
  simp [isWsC] at h
  tauto

/-- Does a character test reject every whitespace character? -/
def blocksAllWs (cmp : Char → Bool) : Bool :=
  !cmp ' ' && !cmp '\t' && !cmp '\n' && !cmp '\r' && !cmp '\x0b' && !cmp '\x0c'

/-- A test that rejects the six whitespace characters rejects every
whitespace character. -/
theorem blocksAllWs_spec (cmp : Char → Bool) (h : blocksAllWs cmp = true)
    {c : Char} (hc : isWsC c = true) : cmp c = false := by
  simp only [blocksAllWs, Bool.and_eq_true, Bool.not_eq_true'] at h
  rcases isWs_cases hc with rfl | rfl | rfl | rfl | rfl | rfl <;> tauto

/-- Syntactic head test: can the pattern neither match empty input nor
start by consuming a whitespace character?  (Computed so that concrete
patterns are checked by `decide`.) -/
def headBlockedWs : RE → Bool
  | .eps => false
  | .chr p => blocksAllWs p
  | .lit [] _ => false
  | .lit (c :: _) ci => blocksAllWs (fun d => if ci then ciEq c d else c == d)
  | .cat a _ => headBlockedWs a
  | .alt a b => headBlockedWs a && headBlockedWs b
  | .starG _ => false
  | .starL _ => false
  | .opt _ => false
  | .grp _ a => headBlockedWs a
  | .eos => true

/-- A pattern whose head is blocked on whitespace cannot match at a
whitespace character, whatever the continuation. -/
theorem reM_ws_blocked (c : Char) (hc : isWsC c = true) (t : List Char) :
    ∀ (r : RE), headBlockedWs r = true →
      ∀ (g : Caps) (k : ReK), reM r (c :: t) g k = none := by
  intro r
  induction r with
  | eps => intro hr; simp [headBlockedWs] at hr
  | chr p =>
    intro hr g k
    have hp := blocksAllWs_spec p (by simpa [headBlockedWs] using hr) hc
    simp [reM, hp]
  | lit w ci =>
    intro hr g k
    cases w with
    | nil => simp [headBlockedWs] at hr
    | cons c' w' =>
      have hcmp := blocksAllWs_spec _ (by simpa [headBlockedWs] using hr) hc
      simp [reM, litMatch, hcmp]
  | cat a b iha ihb =>
    intro hr g k
    simp only [reM]
    exact iha (by simpa [headBlockedWs] using hr) _ _
  | alt a b iha ihb =>
    intro hr g k
    have h2 : headBlockedWs a = true ∧ headBlockedWs b = true := by
      simpa [headBlockedWs] using hr
    simp only [reM]
    rw [iha h2.1 g k, ihb h2.2 g k]
  | starG p => intro hr; simp [headBlockedWs] at hr
  | starL p => intro hr; simp [headBlockedWs] at hr
  | opt a ih => intro hr; simp [headBlockedWs] at hr
  | grp n a ih =>
    intro hr g k
    simp only [reM]
    exact ih (by simpa [headBlockedWs] using hr) _ _
  | eos => intro hr g k; simp [reM]

/-- A head-blocked pattern is not found anywhere in whitespace-only text. -/
theorem reSearch_ws_none (r : RE) (hr : headBlockedWs r = true)
    (hnil : reSearch r [] = none) :
    ∀ (s : List Char), (∀ c ∈ s, isWsC c = true) → reSearch r s = none := by
  intro s
  induction s with
  | nil => intro _; exact hnil
  | cons c t ih =>
    intro hs
    have hc := hs c (List.mem_cons_self c t)
    have h1 : reRun r (c :: t) = none :=
      reM_ws_blocked c hc t r hr [] _
    simp only [reSearch]
    rw [h1]
    exact ih (fun x hx => hs x (List.mem_cons_of_mem c hx))

/-- A literal whose head rejects whitespace does not match at the head of
whitespace-only text. -/
theorem litAt_ws_false {ci : Bool} {w : List Char}
    (hw : headBlockedWs (.lit w ci) = true) :
    ∀ (s : List Char), (∀ c ∈ s, isWsC c = true) → litAt ci w s = false := by
  cases w with
  | nil => simp [headBlockedWs] at hw
  | cons c' w' =>
    intro s hs
    cases s with
    | nil => simp [litAt]
    | cons d t =>
      have hcmp := blocksAllWs_spec _ (by simpa [headBlockedWs] using hw)
        (hs d (List.mem_cons_self d t))
      simp [litAt, hcmp]

/-- Such a literal is found nowhere in whitespace-only text. -/
theorem findSubAux_ws_none {w : List Char}
    (hw : headBlockedWs (.lit w false) = true) :
    ∀ (s : List Char) (i : Nat), (∀ c ∈ s, isWsC c = true) →
      findSubAux w s i = none := by
  intro s
  induction s with
  | nil =>
    intro i hs
    simp [findSubAux, litAt_ws_false hw [] (by simp)]
  | cons c t ih =>
    intro i hs
    rw [findSubAux, litAt_ws_false hw (c :: t) hs]
    simp only [Bool.false_eq_true, if_false]
    exact ih (i + 1) (fun x hx => hs x (List.mem_cons_of_mem c hx))

/-- Case-sensitive substring search fails on whitespace-only text. -/
theorem containsSub_ws {w : List Char}
    (hw : headBlockedWs (.lit w false) = true)
    (s : List Char) (hs : ∀ c ∈ s, isWsC c = true) : containsSub w s = false := by
  unfold containsSub findSub
  rw [findSubAux_ws_none hw s 0 hs]
  rfl

/-- Case-insensitive substring search fails on whitespace-only text. -/
theorem containsSubCI_ws {w : List Char}
    (hw : headBlockedWs (.lit w true) = true) :
    ∀ (s : List Char), (∀ c ∈ s, isWsC c = true) → containsSubCI w s = false := by
  intro s
  induction s with
  | nil => simp [containsSubCI, litAt_ws_false hw [] (by simp)]
  | cons c t ih =>
    intro hs
    rw [containsSubCI, litAt_ws_false hw (c :: t) hs]
    simp only [Bool.false_or]
    exact ih (fun x hx => hs x (List.mem_cons_of_mem c hx))

/-- Word-boundary search fails on whitespace-only text. -/
theorem wordOccursAux_ws {ci : Bool} {w : List Char}
    (hw : headBlockedWs (.lit w ci) = true) :
    ∀ (s : List Char) (prev : Option Char), (∀ c ∈ s, isWsC c = true) →
      wordOccursAux ci w prev s = false := by
  intro s
  induction s with
  | nil =>
    intro prev _
    simp [wordOccursAux, wordAt, litAt_ws_false hw [] (by simp)]
  | cons c t ih =>
    intro prev hs
    rw [wordOccursAux, wordAt, litAt_ws_false hw (c :: t) hs]
    simp only [Bool.and_false, Bool.false_and, Bool.false_or]
    exact ih (some c) (fun x hx => hs x (List.mem_cons_of_mem c hx))

/-- The `Steuer(nummer)?` search fails on whitespace-only text. -/
theorem steuerOccursAux_ws :
    ∀ (s : List Char) (prev : Option Char), (∀ c ∈ s, isWsC c = true) →
      steuerOccursAux prev s = false := by
  have hw : headBlockedWs (.lit "steuer".data true) = true := by decide
  intro s
  induction s with
  | nil =>
    intro prev _
    simp [steuerOccursAux, steuerAt, litAt_ws_false hw [] (by simp)]
  | cons c t ih =>
    intro prev hs
    rw [steuerOccursAux, steuerAt, litAt_ws_false hw (c :: t) hs]
    simp only [Bool.and_false, Bool.false_and, Bool.false_or]
    exact ih (some c) (fun x hx => hs x (List.mem_cons_of_mem c hx))

/-- No German keyword occurs in whitespace-only text. -/
theorem germanKeyword_ws (s : List Char) (hs : ∀ c ∈ s, isWsC c = true) :
    germanKeyword s = false := by
  unfold germanKeyword wordOccurs steuerOccurs
  rw [wordOccursAux_ws (by decide) s none hs, wordOccursAux_ws (by decide) s none hs,
      wordOccursAux_ws (by decide) s none hs, wordOccursAux_ws (by decide) s none hs,
      wordOccursAux_ws (by decide) s none hs, wordOccursAux_ws (by decide) s none hs,
      steuerOccursAux_ws s none hs, wordOccursAux_ws (by decide) s none hs]
  rfl

/-- No French keyword occurs in whitespace-only text. -/
theorem frenchKeyword_ws (s : List Char) (hs : ∀ c ∈ s, isWsC c = true) :
    frenchKeyword s = false := by
  unfold frenchKeyword wordOccurs
  rw [wordOccursAux_ws (by decide) s none hs, wordOccursAux_ws (by decide) s none hs,
      wordOccursAux_ws (by decide) s none hs, wordOccursAux_ws (by decide) s none hs]
  rfl

/-- `_extract_currency` yields nothing on whitespace-only text. -/
theorem extract_currency_ws (s : List Char) (hs : ∀ c ∈ s, isWsC c = true) :
    extract_currency s = none := by
  unfold extract_currency wordOccurs
  rw [containsSub_ws (by decide) s hs, containsSub_ws (by decide) s hs,
      containsSub_ws (by decide) s hs, containsSub_ws (by decide) s hs,
      containsSub_ws (by decide) s hs, containsSub_ws (by decide) s hs,
      containsSub_ws (by decide) s hs, containsSub_ws (by decide) s hs,
      containsSub_ws (by decide) s hs, containsSub_ws (by decide) s hs,
      containsSub_ws (by decide) s hs, containsSub_ws (by decide) s hs,
      containsSub_ws (by decide) s hs, containsSub_ws (by decide) s hs,
      containsSub_ws (by decide) s hs, containsSub_ws (by decide) s hs,
      containsSub_ws (by decide) s hs,
      wordOccursAux_ws (by decide) s none hs,
      germanKeyword_ws s hs, frenchKeyword_ws s hs]
  simp

/-- `_find_vat_number` yields nothing on whitespace-only text. -/
theorem find_vat_number_ws (s : List Char) (hs : ∀ c ∈ s, isWsC c = true) :
    find_vat_number s = none := by
  unfold find_vat_number
  rw [reSearch_ws_none vatPat1 (by decide) (by decide) s hs,
      reSearch_ws_none vatPat2 (by decide) (by decide) s hs,
      reSearch_ws_none vatPat3 (by decide) (by decide) s hs]

/-- `_extract_vat` yields nothing on whitespace-only text. -/
theorem extract_vat_ws (s : List Char) (hs : ∀ c ∈ s, isWsC c = true) :
    extract_vat s = none := by
  unfold extract_vat
  rw [reSearch_ws_none vatRate1 (by decide) (by decide) s hs,
      reSearch_ws_none vatRate2 (by decide) (by decide) s hs]

/-- Collapsing `\r\n` keeps whitespace-only text whitespace-only. -/
theorem collapseCRLF_ws :
    ∀ (s : List Char), (∀ c ∈ s, isWsC c = true) →
      ∀ c ∈ collapseCRLF s, isWsC c = true := by
  intro s
  induction s using collapseCRLF.induct with
  | case1 => intro _ c hc; simp [collapseCRLF] at hc
  | case2 c0 =>
    intro h c hc
    simp only [collapseCRLF, List.mem_singleton] at hc
    subst hc
    exact h c (List.mem_cons_self c [])
  | case3 c0 d t hcd ih =>
    intro h c hc
    rw [collapseCRLF, if_pos hcd] at hc
    rcases List.mem_cons.mp hc with rfl | hm
    · decide
    · exact ih (fun x hx => h x (by simp [hx])) c hm
  | case4 c0 d t hcd ih =>
    intro h c hc
    rw [collapseCRLF, if_neg hcd] at hc
    rcases List.mem_cons.mp hc with rfl | hm
    · exact h c (List.mem_cons_self c (d :: t))
    · exact ih (fun x hx => h x (List.mem_cons_of_mem c0 hx)) c hm

/-- Every line split out of whitespace-only text is whitespace-only. -/
theorem splitLinesAux_ws :
    ∀ (s acc : List Char), (∀ c ∈ s, isWsC c = true) →
      (∀ c ∈ acc, isWsC c = true) →
      ∀ l ∈ splitLinesAux s acc, ∀ c ∈ l, isWsC c = true := by
  intro s
  induction s with
  | nil =>
    intro acc _ hacc l hl c hc
    by_cases he : acc.isEmpty = true
    · simp [splitLinesAux, he] at hl
    · simp only [splitLinesAux, he, Bool.false_eq_true, if_false,
        List.mem_singleton] at hl
      subst hl
      exact hacc c (List.mem_reverse.mp hc)
  | cons c0 t ih =>
    intro acc hs hacc l hl c hc
    have hc0 := hs c0 (List.mem_cons_self c0 t)
    have ht : ∀ x ∈ t, isWsC x = true := fun x hx => hs x (List.mem_cons_of_mem c0 hx)
    by_cases hb : isLineBreakC c0 = true
    · rw [splitLinesAux, if_pos hb] at hl
      rcases List.mem_cons.mp hl with rfl | hm
      · exact hacc c (List.mem_reverse.mp hc)
      · exact ih [] ht (by simp) l hm c hc
    · rw [splitLinesAux, if_neg (by simp [hb])] at hl
      refine ih (c0 :: acc) ht ?_ l hl c hc
      intro x hx
      rcases List.mem_cons.mp hx with rfl | hm
      · exact hc0
      · exact hacc x hm

/-- Whitespace-only lists strip to nothing. -/
theorem pyStrip_ws_nil {l : List Char} (h : ∀ c ∈ l, isWsC c = true) :
    pyStrip l = [] := by
  unfold pyStrip
  rw [List.dropWhile_eq_nil_iff.mpr h]
  simp

/-- Whitespace-only text has no non-blank lines. -/
theorem nonBlankLines_ws {raw : List Char} (h : ∀ c ∈ raw, isWsC c = true) :
    nonBlankLines raw = [] := by
  unfold nonBlankLines pySplitlines
  rw [List.filter_eq_nil_iff]
  intro l hl
  obtain ⟨l0, hl0, rfl⟩ := List.mem_map.mp hl
  have hws := splitLinesAux_ws (collapseCRLF raw) [] (collapseCRLF_ws raw h)
    (by simp) l0 hl0
  simp [pyStrip_ws_nil hws]

/-- C10: on input with no non-blank content (empty or whitespace-only
text) the heuristic extractor returns the sentinel provider with no
address and no VAT number, an empty item list, and no total, currency or
VAT — the fallback shape, produced without any error path. -/
theorem claimC10_empty_input (raw : String)
    (h : ∀ c ∈ raw.data, isWsC c = true) :
    parseReceipt raw =
      ⟨⟨"Unknown", none, none⟩, ⟨[], none, none, none⟩, none⟩ := by
  have hlines : nonBlankLines raw.data = [] := nonBlankLines_ws h
  unfold parseReceipt extract_provider
  rw [hlines]
  rw [find_vat_number_ws raw.data h, extract_currency_ws raw.data h,
      extract_vat_ws raw.data h]
  rfl

/-- C10 witness: the theorem applied at a concrete whitespace-only text. -/
theorem claimC10_witness :
    parseReceipt " \n\t " =
      ⟨⟨"Unknown", none, none⟩, ⟨[], none, none, none⟩, none⟩ :=
  claimC10_empty_input " \n\t " (by decide)
